import Mathlib

/-!
Verification of the make-it-heavy agent loop and orchestrator.

The Python sources (`agent.py`, `orchestrator.py`) are shallowly embedded:
Python values that flow through the tool-call pipeline are modelled by the
inductive type `PyVal`; Python exceptions become `Except PErr`; the external
collaborators (the model provider, `json.loads`, `difflib.SequenceMatcher.ratio`,
CPython object identities) are parameters of the embedded functions.
Python stdlib string operations used by the source (`str.join`, `str.replace`,
`str.split`, `str(int)`, `json.dumps`) are given executable Lean models below.
-/

namespace MIH

/-! ### Model of Python `str(int)` (decimal representation) -/

/-- Decimal digit character. -/
def digChar (d : Nat) : Char :=
  match d with
  | 0 => '0' | 1 => '1' | 2 => '2' | 3 => '3' | 4 => '4'
  | 5 => '5' | 6 => '6' | 7 => '7' | 8 => '8' | _ => '9'

/-- Little-endian decimal digits of `n`, with explicit fuel (`fuel ≥ n` suffices). -/
def natDigitsF : Nat → Nat → List Nat
  | 0, _ => []
  | f + 1, n => if n < 10 then [n] else n % 10 :: natDigitsF f (n / 10)

/-- Little-endian decimal digits of a natural number. -/
def natDigits (n : Nat) : List Nat := natDigitsF (n + 1) n

/-- Model of Python `str(n)` for a natural number. -/
def natRepr (n : Nat) : String := ⟨((natDigits n).reverse.map digChar)⟩

/-- Model of Python `str(k)` for an integer. -/
def intRepr (k : Int) : String :=
  if k < 0 then "-" ++ natRepr (-k).toNat else natRepr k.toNat

/-- Value denoted by a little-endian digit list. -/
def digitsVal : List Nat → Nat
  | [] => 0
  | d :: ds => d + 10 * digitsVal ds

theorem natDigitsF_val (f : Nat) : ∀ n : Nat, n ≤ f → digitsVal (natDigitsF f n) = n := by
  induction f with
  | zero => intro n h; interval_cases n; rfl
  | succ f ih =>
    intro n h
    by_cases h10 : n < 10
    · simp [natDigitsF, h10, digitsVal]
    · have hdiv : n / 10 ≤ f := by omega
      simp only [natDigitsF, h10, if_false, digitsVal, ih (n / 10) hdiv]
      omega

theorem digitsVal_natDigits (n : Nat) : digitsVal (natDigits n) = n :=
  natDigitsF_val (n + 1) n (Nat.le_succ n)

theorem natDigitsF_lt_ten (f : Nat) : ∀ n, ∀ d ∈ natDigitsF f n, d < 10 := by
  induction f with
  | zero => intro n d hd; simp [natDigitsF] at hd
  | succ f ih =>
    intro n d hd
    by_cases h10 : n < 10
    · simp [natDigitsF, h10] at hd; omega
    · simp only [natDigitsF, h10, if_false, List.mem_cons] at hd
      rcases hd with h | h
      · omega
      · exact ih _ _ h

theorem digChar_inj : ∀ d₁ < 10, ∀ d₂ < 10, digChar d₁ = digChar d₂ → d₁ = d₂ := by
  decide

theorem map_digChar_inj :
    ∀ l₁ l₂ : List Nat, (∀ d ∈ l₁, d < 10) → (∀ d ∈ l₂, d < 10) →
      l₁.map digChar = l₂.map digChar → l₁ = l₂ := by
  intro l₁
  induction l₁ with
  | nil => intro l₂ _ _ h; cases l₂ <;> simp_all
  | cons a l ih =>
    intro l₂ h₁ h₂ h
    cases l₂ with
    | nil => simp at h
    | cons b l₂t =>
      simp only [List.map_cons, List.cons.injEq] at h
      have hab : a = b :=
        digChar_inj a (h₁ a (by simp)) b (h₂ b (by simp)) h.1
      have : l = l₂t :=
        ih l₂t (fun d hd => h₁ d (by simp [hd])) (fun d hd => h₂ d (by simp [hd])) h.2
      simp [hab, this]

theorem natRepr_inj {m n : Nat} (h : natRepr m = natRepr n) : m = n := by
  have hm := natDigitsF_lt_ten (m + 1) m
  have hn := natDigitsF_lt_ten (n + 1) n
  have hlist : (natDigits m).reverse.map digChar = (natDigits n).reverse.map digChar := by
    have := congrArg String.data h
    simpa [natRepr] using this
  have hdigs : natDigits m = natDigits n := by
    have hrev : (natDigits m).reverse = (natDigits n).reverse :=
      map_digChar_inj _ _
        (fun d hd => hm d (List.mem_reverse.mp hd))
        (fun d hd => hn d (List.mem_reverse.mp hd)) hlist
    simpa using congrArg List.reverse hrev
  calc m = digitsVal (natDigits m) := (digitsVal_natDigits m).symm
    _ = digitsVal (natDigits n) := by rw [hdigs]
    _ = n := digitsVal_natDigits n

/-! ### Models of Python `str.join`, `str.replace`, `str.split` -/

/-- Model of Python `sep.join(parts)`. -/
def pyJoin (sep : String) : List String → String
  | [] => ""
  | [x] => x
  | x :: y :: xs => x ++ sep ++ pyJoin sep (y :: xs)

/-- One pass of Python `str.replace` over a character list: every non-overlapping
occurrence of `p :: ps` (scanning left to right) is replaced by `rep`.
The fuel argument is decremented once per emitted position; `fuel ≥ s.length`
makes it semantically irrelevant. -/
def replaceFuel (p : Char) (ps rep : List Char) : Nat → List Char → List Char
  | _, [] => []
  | 0, s => s
  | f + 1, c :: rest =>
    if (p :: ps).isPrefixOf (c :: rest) then
      rep ++ replaceFuel p ps rep f (rest.drop ps.length)
    else
      c :: replaceFuel p ps rep f rest

/-- Model of Python `s.replace(pat, rep)` (the sources never call it with an
empty pattern, for which we just return `s`). -/
def strReplace (s pat rep : String) : String :=
  match pat.data with
  | [] => s
  | p :: ps => ⟨replaceFuel p ps rep.data s.data.length s.data⟩

/-- Model of Python `s.split()` on character lists: maximal runs of
non-whitespace characters. Fuel decreases once per produced word;
`fuel ≥ l.length` suffices. -/
def wsSplitF : Nat → List Char → List (List Char)
  | _, [] => []
  | 0, l => [l]
  | f + 1, c :: rest =>
    if c.isWhitespace then wsSplitF f rest
    else (c :: rest.takeWhile (fun x => !x.isWhitespace)) ::
      wsSplitF f (rest.dropWhile (fun x => !x.isWhitespace))

/-- Model of Python `s.split()` (whitespace split, empty pieces dropped). -/
def pySplitWs (s : String) : List String :=
  (wsSplitF s.data.length s.data).map (fun l => ⟨l⟩)

/-- Model of Python `s.strip()` (whitespace per `Char.isWhitespace`). -/
def pyStrip (s : String) : String :=
  ⟨((s.data.dropWhile Char.isWhitespace).reverse.dropWhile Char.isWhitespace).reverse⟩

/-- Model of Python `s.lower()`. -/
def pyLower (s : String) : String := ⟨s.data.map Char.toLower⟩

/-- Model of Python `s.startswith(pre)`. -/
def pyStartsWith (s pre : String) : Bool := pre.data.isPrefixOf s.data

/-- Model of `s.format(user_input=u)` for the orchestrator templates, which
contain the single substitution field `\x7buser_input\x7d`. -/
def formatUserInput (t u : String) : String := strReplace t "\x7buser_input\x7d" u

/-! ### Model of Python values

`PyVal` covers the dynamically typed values that flow through the agent and
orchestrator: `None`, booleans, ints, strings, lists, dicts with string keys
(all dicts built or read by the sources are JSON-object shaped), and
attribute-carrying SDK objects.  An `obj` carries its `str()` rendering and
its attribute list. -/

inductive PyVal where
  | none : PyVal
  | bool : Bool → PyVal
  | int : Int → PyVal
  | str : String → PyVal
  | list : List PyVal → PyVal
  | pdict : List (String × PyVal) → PyVal
  | obj : String → List (String × PyVal) → PyVal

/-- Python truthiness. -/
def truthy : PyVal → Bool
  | .none => false
  | .bool b => b
  | .int k => k != 0
  | .str s => s != ""
  | .list xs => !xs.isEmpty
  | .pdict xs => !xs.isEmpty
  | .obj _ _ => true

/-- Lookup in a dict (keys are unique in every dict the sources build). -/
def plookup (d : List (String × PyVal)) (k : String) : Option PyVal :=
  (d.find? (fun p => p.1 == k)).map (fun p => p.2)

/-- Model of `getattr(v, k, dflt)`: attribute lookup with a default.  The
attributes the sources ask for (`id`, `function`, `name`, `arguments`) do not
exist on the builtin types, so every non-`obj` value falls to the default. -/
def pyGetattr (v : PyVal) (k : String) (dflt : PyVal) : PyVal :=
  match v with
  | .obj _ attrs => (plookup attrs k).getD dflt
  | _ => dflt

mutual

/-- Model of Python `str(v)`.  The container renderings are simplified
(no claim depends on them); atoms follow Python exactly. -/
def pyStr : PyVal → String
  | .none => "None"
  | .bool b => if b then "True" else "False"
  | .int k => intRepr k
  | .str s => s
  | .list xs => "[" ++ pyJoin ", " (pyStrList xs) ++ "]"
  | .pdict xs => "\x7b" ++ pyJoin ", " (pyStrPairs xs) ++ "\x7d"
  | .obj r _ => r

/-- `str()` of the elements of a list. -/
def pyStrList : List PyVal → List String
  | [] => []
  | v :: vs => pyStr v :: pyStrList vs

/-- `str()` of the entries of a dict. -/
def pyStrPairs : List (String × PyVal) → List String
  | [] => []
  | (k, v) :: vs => (k ++ ": " ++ pyStr v) :: pyStrPairs vs

end

/-- JSON string escaping for `json.dumps`. -/
def escChar (c : Char) : List Char :=
  if c = '"' then ['\\', '"']
  else if c = '\\' then ['\\', '\\']
  else if c = '\n' then ['\\', 'n']
  else if c = '\t' then ['\\', 't']
  else if c = '\r' then ['\\', 'r']
  else [c]

/-- JSON quoting of a string. -/
def jsonQuote (s : String) : String :=
  "\"" ++ ⟨s.data.foldr (fun c acc => escChar c ++ acc) []⟩ ++ "\""

mutual

/-- Model of `json.dumps(v)` with default separators.  Returns `Option.none`
when Python would raise `TypeError` (a non-serializable `obj` inside `v`). -/
def dumps : PyVal → Option String
  | .none => some "null"
  | .bool b => some (if b then "true" else "false")
  | .int k => some (intRepr k)
  | .str s => some (jsonQuote s)
  | .list xs => (dumpsList xs).map (fun ys => "[" ++ pyJoin ", " ys ++ "]")
  | .pdict xs => (dumpsPairs xs).map (fun ys => "\x7b" ++ pyJoin ", " ys ++ "\x7d")
  | .obj _ _ => Option.none

/-- `json.dumps` of the elements of a list. -/
def dumpsList : List PyVal → Option (List String)
  | [] => some []
  | v :: vs =>
    match dumps v, dumpsList vs with
    | some s, some ss => some (s :: ss)
    | _, _ => Option.none

/-- `json.dumps` of the entries of a dict. -/
def dumpsPairs : List (String × PyVal) → Option (List String)
  | [] => some []
  | (k, v) :: vs =>
    match dumps v, dumpsPairs vs with
    | some s, some ss => some ((jsonQuote k ++ ": " ++ s) :: ss)
    | _, _ => Option.none

end

mutual

/-- Model of `json.dumps(v, default=str)`: total, since non-serializable
values are rendered through `str()`. -/
def dumpsD : PyVal → String
  | .none => "null"
  | .bool b => if b then "true" else "false"
  | .int k => intRepr k
  | .str s => jsonQuote s
  | .list xs => "[" ++ pyJoin ", " (dumpsDList xs) ++ "]"
  | .pdict xs => "\x7b" ++ pyJoin ", " (dumpsDPairs xs) ++ "\x7d"
  | .obj r _ => jsonQuote r

/-- `json.dumps(default=str)` of the elements of a list. -/
def dumpsDList : List PyVal → List String
  | [] => []
  | v :: vs => dumpsD v :: dumpsDList vs

/-- `json.dumps(default=str)` of the entries of a dict. -/
def dumpsDPairs : List (String × PyVal) → List String
  | [] => []
  | (k, v) :: vs => (jsonQuote k ++ ": " ++ dumpsD v) :: dumpsDPairs vs

end

/-! ### Model of Python exceptions -/

/-- The exception kinds the embedded code can raise.  All of them are
`Exception` subclasses, so a bare `except Exception` catches every one. -/
inductive PErr where
  | indexError : String → PErr
  | typeError : String → PErr
  | attributeError : String → PErr
  | keyError : String → PErr
  | valueError : String → PErr
  | exception : String → PErr

/-- Model of `str(e)` for an exception: its message. -/
def PErr.msg : PErr → String
  | .indexError m => m
  | .typeError m => m
  | .attributeError m => m
  | .keyError m => m
  | .valueError m => m
  | .exception m => m

/-- Model of `v.get(k, dflt)`: dict method lookup.  On a non-dict the
attribute access raises `AttributeError` (the builtin non-dict values flowing
here have no `get` method). -/
def pyGet (v : PyVal) (k : String) (dflt : PyVal) : Except PErr PyVal :=
  match v with
  | .pdict d => .ok ((plookup d k).getD dflt)
  | _ => .error (.attributeError ("object has no attribute get: " ++ k))

/-! ### agent.py: tool-call normalization -/

/-- The canonical tool call built by `AIAgent._normalize_tool_call`:
the dict `\x7b"id": id, "type": "function", "function": \x7b"name": name,
"arguments": arguments\x7d\x7d`.  `arguments` is always a string after
normalization; `id` and `name` keep their (truthy) provider values. -/
structure NormalizedCall where
  id : PyVal
  name : PyVal
  arguments : String

/-- The dict shape of a normalized call, as re-consumed by
`handle_tool_call`. -/
def NormalizedCall.toPyVal (c : NormalizedCall) : PyVal :=
  .pdict [("id", c.id), ("type", .str "function"),
          ("function", .pdict [("name", c.name), ("arguments", .str c.arguments)])]

/-- The `function` field of a dict-shaped tool call
(`tool_call.get('function', \x7b\x7d) or \x7b\x7d`, agent.py line 53). -/
def functionField (d : List (String × PyVal)) : PyVal :=
  let fd0 := (plookup d "function").getD (.pdict [])
  if truthy fd0 then fd0 else .pdict []

/-- `AIAgent._normalize_tool_call` (agent.py lines 46-79).  `objId` is the
CPython `id(tool_call)` used for the synthesized placeholder id.
Returns `ok Option.none` when the call is dropped (missing name), and
`error` when Python would raise (dict-shaped call whose truthy `function`
field is not a dict, or structured arguments that `json.dumps` rejects). -/
def normalizeToolCall (objId : Nat) (tool_call : PyVal) :
    Except PErr (Option NormalizedCall) := do
  let data ←
    match tool_call with
    | .none => pure Option.none
    | .pdict d => do
      let call_id := (plookup d "id").getD .none
      let function_data := functionField d
      let name ← pyGet function_data "name" .none
      let arguments ← pyGet function_data "arguments" (.str "\x7b\x7d")
      pure (some (call_id, name, arguments))
    | _ =>
      let call_id := pyGetattr tool_call "id" .none
      let function_obj := pyGetattr tool_call "function" .none
      let name := if truthy function_obj then pyGetattr function_obj "name" .none else .none
      let arguments :=
        if truthy function_obj then pyGetattr function_obj "arguments" (.str "\x7b\x7d")
        else .str "\x7b\x7d"
      pure (some (call_id, name, arguments))
  match data with
  | Option.none => pure Option.none
  | some (call_id, name, arguments) =>
    if !truthy name then pure Option.none
    else do
      let argStr ←
        match arguments with
        | .pdict _ | .list _ =>
          match dumps arguments with
          | some s => pure s
          | Option.none => Except.error (.typeError "Object is not JSON serializable")
        | .none => pure "\x7b\x7d"
        | .str s => pure s
        | v => pure (pyStr v)
      pure (some
        { id := if truthy call_id then call_id else .str ("call_" ++ natRepr objId)
          name := name
          arguments := argStr })

/-- Iteration protocol for `for tool_call in tool_calls`: lists yield their
elements, strings their characters, dicts their keys; other values raise
`TypeError`. -/
def pyIterate : PyVal → Option (List PyVal)
  | .list xs => some xs
  | .str s => some (s.data.map (fun c => .str ⟨[c]⟩))
  | .pdict d => some (d.map (fun p => .str p.1))
  | _ => Option.none

/-- Helper for `_normalize_tool_calls`: normalize each element in order,
keeping the survivors.  `ids i` is the CPython identity of element `i`. -/
def normalizeEach (ids : Nat → Nat) : Nat → List PyVal → Except PErr (List NormalizedCall)
  | _, [] => .ok []
  | i, tc :: rest => do
    let r ← normalizeToolCall (ids i) tc
    let rs ← normalizeEach ids (i + 1) rest
    match r with
    | some c => pure (c :: rs)
    | Option.none => pure rs

/-- `AIAgent._normalize_tool_calls` (agent.py lines 81-91). -/
def normalizeToolCalls (ids : Nat → Nat) (tool_calls : PyVal) :
    Except PErr (List NormalizedCall) :=
  if !truthy tool_calls then .ok []
  else
    match pyIterate tool_calls with
    | some elems => normalizeEach ids 0 elems
    | Option.none => .error (.typeError "object is not iterable")

/-! ### agent.py: argument parsing -/

/-- `AIAgent._parse_tool_arguments` (agent.py lines 93-114).
`loads` models `json.loads`; its `error` carries the `JSONDecodeError`
message. -/
def parseToolArgs (loads : String → Except String PyVal) (raw : PyVal) :
    Except PErr (List (String × PyVal)) :=
  match raw with
  | .none => .ok []
  | .pdict d => .ok d
  | .str s =>
    let s := pyStrip s
    if s = "" then .ok []
    else
      match loads s with
      | .error e => .error (.valueError ("Invalid JSON arguments: " ++ e))
      | .ok (.pdict d) => .ok d
      | .ok _ => .error (.valueError "Tool arguments JSON must decode to an object")
  | _ => .error (.valueError "Unsupported tool arguments format")

/-! ### agent.py: tool-call handling -/

/-- A tool execute function: kwargs in, JSON-serializable result out;
`error` models a raised exception (its `str(e)` message). -/
def ToolFn := List (String × PyVal) → Except String PyVal

/-- One conversation message.  `tool_calls` is only populated on assistant
messages (the source omits the key when the list is empty; an absent key and
an empty list are observably equal here).  `tool_call_id` and `name` are only
populated on tool messages. -/
structure Message where
  role : String
  content : String := ""
  tool_calls : List NormalizedCall := []
  tool_call_id : Option PyVal := Option.none
  name : Option PyVal := Option.none

/-- `v == "s"` for a Python value: only a string can equal a string. -/
def pyEqStr (v : PyVal) (s : String) : Bool :=
  match v with
  | .str t => t == s
  | _ => false

/-- The body of the `try` block of `AIAgent.handle_tool_call`
(agent.py lines 168-189). -/
def handleToolCallBody (loads : String → Except String PyVal)
    (tools : List (String × ToolFn)) (objId : Nat) (tool_call : PyVal) :
    Except PErr Message := do
  let n ← normalizeToolCall objId tool_call
  match n with
  | Option.none => Except.error (.valueError "Malformed tool call payload")
  | some c => do
    let tool_args ← parseToolArgs loads (.str c.arguments)
    let tool_result : PyVal ←
      match c.name with
      | .str s =>
        match (tools.find? (fun p => p.1 == s)).map (fun p => p.2) with
        | some f =>
          match f tool_args with
          | .ok v => pure v
          | .error m => Except.error (.exception m)
        | Option.none => pure (.pdict [("error", .str ("Unknown tool: " ++ s))])
      | v => pure (.pdict [("error", .str ("Unknown tool: " ++ pyStr v))])
    pure { role := "tool", tool_call_id := some c.id, name := some c.name,
           content := dumpsD tool_result }

/-- `AIAgent.handle_tool_call` (agent.py lines 166-206): total — every
exception from the body is converted into an error `ToolResult` message.
(The `json.dumps` in the handler itself consumes a string-only dict and can
never raise; `getD` discharges the impossible case.) -/
def handleToolCall (loads : String → Except String PyVal)
    (tools : List (String × ToolFn)) (objId : Nat) (tool_call : PyVal) : Message :=
  match handleToolCallBody loads tools objId tool_call with
  | .ok m => m
  | .error e =>
    let rec0 : PyVal × PyVal :=
      if truthy tool_call then
        match normalizeToolCall objId tool_call with
        | .ok (some c) => (c.id, c.name)
        | _ => (.str "unknown", .str "unknown")
      else (.str "unknown", .str "unknown")
    { role := "tool", tool_call_id := some rec0.1, name := some rec0.2,
      content :=
        (dumps (.pdict [("error", .str ("Tool execution failed: " ++ e.msg))])).getD "" }

/-! ### agent.py: response deduplication -/

/-- Normalized form of a content block: lowercased, whitespace-collapsed
(agent.py line 129). -/
def normalizeBlock (s : String) : String := pyJoin " " (pySplitWs (pyLower s))

/-- The duplicate test of `_finalize_response_content` (agent.py lines
132-141): exact normalized match, or both forms at least 100 characters with
`SequenceMatcher.ratio` (the parameter `ratioFn`) at least 0.94. -/
def isDupBlock (ratioFn : String → String → ℚ) (normalized : String)
    (norms : List String) : Bool :=
  norms.any (fun en =>
    normalized == en ||
      (decide (100 ≤ normalized.length) &&
        (decide (100 ≤ en.length) && decide ((94 : ℚ) / 100 ≤ ratioFn normalized en))))

/-- The accumulation loop of `_finalize_response_content` (agent.py lines
124-145): `kept` are the deduplicated stripped blocks, `norms` their
normalized forms (kept in lockstep). -/
def dedupGo (ratioFn : String → String → ℚ) :
    List String → List String → List String → List String
  | [], kept, _ => kept
  | b :: rest, kept, norms =>
    let stripped := pyStrip b
    if stripped = "" then dedupGo ratioFn rest kept norms
    else
      let normalized := normalizeBlock stripped
      if isDupBlock ratioFn normalized norms then dedupGo ratioFn rest kept norms
      else dedupGo ratioFn rest (kept ++ [stripped]) (norms ++ [normalized])

/-- `AIAgent._finalize_response_content` (agent.py lines 116-147). -/
def finalizeResponseContent (ratioFn : String → String → ℚ)
    (content_blocks : List String) : String :=
  match content_blocks with
  | [] => ""
  | _ => pyJoin "\n\n" (dedupGo ratioFn content_blocks [] [])

/-! ### agent.py: assistant message extraction -/

/-- Python subscript `v[0]`. -/
def subscriptZero : PyVal → Except PErr PyVal
  | .list [] => .error (.indexError "list index out of range")
  | .list (x :: _) => .ok x
  | .str s =>
    match s.data with
    | [] => .error (.indexError "string index out of range")
    | c :: _ => .ok (.str ⟨[c]⟩)
  | .pdict _ => .error (.keyError "0")
  | _ => .error (.typeError "object is not subscriptable")

/-- `response.get('choices', [\x7b\x7d])[0].get('message', \x7b\x7d)` when
the response is a dict, else `\x7b\x7d` (agent.py lines 244-247). -/
def getAssistantMessage (response : PyVal) : Except PErr PyVal :=
  match response with
  | .pdict d => do
    let choices := (plookup d "choices").getD (.list [.pdict []])
    let first ← subscriptZero choices
    pyGet first "message" (.pdict [])
  | _ => .ok (.pdict [])

/-- Content coercion (agent.py lines 249-257). -/
def coerceContent (raw : PyVal) : String :=
  match raw with
  | .none => ""
  | .list _ => dumpsD raw
  | .pdict _ => dumpsD raw
  | .str s => s
  | v => pyStr v

/-- Extraction of one turn: coerced assistant content and the raw
`tool_calls` value (agent.py lines 244-259). -/
def extractTurn (response : PyVal) : Except PErr (String × PyVal) := do
  let am ← getAssistantMessage response
  let rawContent ← pyGet am "content" (.str "")
  let rawToolCalls ← pyGet am "tool_calls" .none
  pure (coerceContent rawContent, rawToolCalls)

/-! ### agent.py: the run loop -/

/-- The configuration values `AIAgent.run` reads (config is an external
collaborator; the source defaults are 10 and 2). -/
structure AgentCfg where
  system_prompt : String := "You are a helpful assistant"
  max_iterations : Nat := 10
  finalize_after_no_tool_streak : Int := 2

/-- The external collaborators of one `AIAgent`:
`ratioFn` models `difflib.SequenceMatcher(None, a, b).ratio()`;
`loads` models `json.loads`;
`tools` is the discovered tool mapping;
`oid c p` is the CPython identity of the tool-call object at position `p`
of turn `c` (used only for synthesized placeholder ids). -/
structure AgentEnv where
  ratioFn : String → String → ℚ
  loads : String → Except String PyVal
  tools : List (String × ToolFn)
  oid : Nat → Nat → Nat

/-- The mutable state of one `AIAgent.run` invocation. -/
structure RunState where
  messages : List Message
  full_response_content : List String
  non_completion_tool_calls : Nat
  no_tool_streak : Nat
  completion_message_fallback : Option String

/-- The completion-message capture (agent.py lines 304-310): a non-`None`
`completion_message` argument is stringified if needed, stripped, and kept
as the fallback only when non-empty. -/
def completionFallbackUpdate (st : RunState) (cm : PyVal) : RunState :=
  match cm with
  | .none => st
  | .str s =>
    if pyStrip s ≠ "" then { st with completion_message_fallback := some (pyStrip s) }
    else st
  | v =>
    let s := pyStrip (dumpsD v)
    if s ≠ "" then { st with completion_message_fallback := some s } else st

/-- Processing of a single tool call inside the per-turn batch loop
(agent.py lines 281-320), threading the `task_completed` flag and the
run state. -/
def processToolCall (E : AgentEnv) (tc : NormalizedCall) :
    Bool × RunState → Bool × RunState :=
  fun acc =>
    let task_completed := acc.1
    let st := acc.2
    if pyEqStr tc.name "mark_task_complete" then
      -- premature-completion guard (agent.py lines 288-295)
      if !(decide (0 < st.full_response_content.length) ||
           decide (0 < st.non_completion_tool_calls)) then
        (task_completed, st)
      else
        let tool_result := handleToolCall E.loads E.tools 0 tc.toPyVal
        let st := { st with messages := st.messages ++ [tool_result] }
        let tool_args :=
          match parseToolArgs E.loads (.str tc.arguments) with
          | .ok d => d
          | .error _ => []
        let cm := (plookup tool_args "completion_message").getD .none
        (true, completionFallbackUpdate st cm)
    else
      let tool_result := handleToolCall E.loads E.tools 0 tc.toPyVal
      (task_completed,
        { st with messages := st.messages ++ [tool_result],
                  non_completion_tool_calls := st.non_completion_tool_calls + 1 })

/-- The code after the `while` loop (agent.py lines 340-347); the
`string_content` re-map is the identity on an all-string list. -/
def finalReturn (E : AgentEnv) (st : RunState) : Except PErr String :=
  if !st.full_response_content.isEmpty then
    .ok (finalizeResponseContent E.ratioFn st.full_response_content)
  else
    match st.completion_message_fallback with
    | some m => .ok m
    | Option.none =>
      .ok "I apologize, but I couldn\x27t generate a meaningful response. Please try rephrasing your question."

/-- The `while iteration < max_iterations` loop of `AIAgent.run`
(agent.py lines 235-338).  `provider callIdx` is the response of the
`callIdx`-th provider call (the provider is external and may not raise here;
a raise would simply end the run, which no claim exercises).  The fuel is
the number of remaining iterations. -/
def runLoop (E : AgentEnv) (cfg : AgentCfg) (provider : Nat → PyVal) :
    Nat → Nat → RunState → Except PErr String
  | 0, _, st => finalReturn E st
  | f + 1, callIdx, st => do
    let response := provider callIdx
    let turn ← extractTurn response
    let content := turn.1
    let tool_calls ← normalizeToolCalls (E.oid callIdx) turn.2
    let st := { st with messages := st.messages ++
      [({ role := "assistant", content := content, tool_calls := tool_calls } : Message)] }
    let st :=
      if content ≠ "" ∧ pyStrip content ≠ "" then
        { st with full_response_content := st.full_response_content ++ [pyStrip content] }
      else st
    if !tool_calls.isEmpty then
      let st := { st with no_tool_streak := 0 }
      let r := tool_calls.foldl (fun acc tc => processToolCall E tc acc) (false, st)
      let task_completed := r.1
      let st := r.2
      if task_completed then
        let finalized := finalizeResponseContent E.ratioFn st.full_response_content
        if finalized ≠ "" then pure finalized
        else
          match st.completion_message_fallback with
          | some m => pure m
          | Option.none => pure "Task completed successfully."
      else runLoop E cfg provider f (callIdx + 1) st
    else
      let st := { st with no_tool_streak := st.no_tool_streak + 1 }
      if (st.no_tool_streak : Int) ≥ max 1 cfg.finalize_after_no_tool_streak then
        let finalized := finalizeResponseContent E.ratioFn st.full_response_content
        if finalized ≠ "" then pure finalized
        else runLoop E cfg provider f (callIdx + 1) st
      else runLoop E cfg provider f (callIdx + 1) st

/-- `AIAgent.run` (agent.py lines 208-347). -/
def run (E : AgentEnv) (cfg : AgentCfg) (provider : Nat → PyVal)
    (user_input : String) : Except PErr String :=
  runLoop E cfg provider cfg.max_iterations 0
    { messages :=
        [{ role := "system", content := cfg.system_prompt },
         { role := "user", content := user_input }],
      full_response_content := [],
      non_completion_tool_calls := 0,
      no_tool_streak := 0,
      completion_message_fallback := Option.none }

/-! ### orchestrator.py: fallback subtasks -/

/-- The template list of `_build_fallback_subtasks` (orchestrator.py lines
40-47). -/
def fallbackTemplates : List String :=
  ["What are the most important background facts about \x7buser_input\x7d?",
   "What are the key insights and implications related to \x7buser_input\x7d?",
   "What alternative perspectives or counterarguments exist about \x7buser_input\x7d?",
   "Which claims about \x7buser_input\x7d should be verified and what evidence supports them?",
   "What practical takeaways or recommendations can be derived from \x7buser_input\x7d?",
   "What risks, limitations, or uncertainties are associated with \x7buser_input\x7d?"]

/-- `TaskOrchestrator._build_fallback_subtasks` (orchestrator.py lines
38-56). -/
def buildFallbackSubtasks (user_input : String) (num_agents : Nat) : List String :=
  (List.range num_agents).map (fun index =>
    let template := fallbackTemplates.getD (index % fallbackTemplates.length) ""
    let template :=
      if fallbackTemplates.length ≤ index then
        strReplace template "?" (" (alternative angle " ++ natRepr (index + 1) ++ ")?")
      else template
    formatUserInput template user_input)

/-- The item loop of `_normalize_generated_subtasks` (orchestrator.py lines
68-83), including the early return at the desired count, the fallback
padding and the final truncation. -/
def normalizeLoop (user_input : String) (num_agents : Nat) :
    List PyVal → List String → List String
  | [], normalized =>
    let normalized :=
      if normalized.length < num_agents then
        normalized ++
          (buildFallbackSubtasks user_input num_agents).take (num_agents - normalized.length)
      else normalized
    normalized.take num_agents
  | item :: rest, normalized =>
    let task_text := pyStrip (pyStr item)
    let normalized := if task_text ≠ "" then normalized ++ [task_text] else normalized
    if num_agents ≤ normalized.length then normalized.take num_agents
    else normalizeLoop user_input num_agents rest normalized

/-- `TaskOrchestrator._normalize_generated_subtasks` (orchestrator.py lines
58-83). -/
def normalizeGeneratedSubtasks (generated : PyVal) (user_input : String)
    (num_agents : Nat) : List String :=
  match generated with
  | .list items => normalizeLoop user_input num_agents items []
  | _ => buildFallbackSubtasks user_input num_agents

/-! ### orchestrator.py: per-agent execution and aggregation -/

/-- One entry of the collected results list (the dicts built at
orchestrator.py lines 153-158, 163-168, 316-321, 328-333). -/
structure AgentRes where
  agent_id : Nat
  status : String
  response : String
  execution_time : ℚ

/-- The shared progress/results maps of the orchestrator. -/
structure OrchState where
  agent_progress : List (Nat × String)
  agent_results : List (Nat × String)

/-- Assoc update (Python dict assignment). -/
def setAssoc (l : List (Nat × String)) (k : Nat) (v : String) : List (Nat × String) :=
  if l.any (fun p => p.1 == k) then
    l.map (fun p => if p.1 == k then (k, v) else p)
  else l ++ [(k, v)]

/-- `TaskOrchestrator.update_agent_progress` (orchestrator.py lines 129-134).
The lock only serializes updates; updates commute across distinct agent ids,
so the sequential fold below reproduces every interleaving. -/
def updateAgentProgress (st : OrchState) (agent_id : Nat) (status : String)
    (result : Option String) : OrchState :=
  { agent_progress := setAssoc st.agent_progress agent_id status,
    agent_results :=
      match result with
      | some r => setAssoc st.agent_results agent_id r
      | Option.none => st.agent_results }

/-- `TaskOrchestrator.run_agent_parallel` (orchestrator.py lines 136-168).
`agentRun n` is the outcome of the `n`-th would-be attempt of constructing
and running the `AIAgent` (`error` models a raised exception).  The source
performs exactly one attempt: only `agentRun 0` is consulted.  `elapsed`
models the wall-clock duration of the successful call. -/
def runAgentParallel (agentRun : Nat → Except String String) (elapsed : ℚ)
    (st : OrchState) (agent_id : Nat) : AgentRes × OrchState :=
  let st := updateAgentProgress st agent_id "PROCESSING..." Option.none
  match agentRun 0 with
  | .ok response =>
    ({ agent_id := agent_id, status := "success", response := response,
       execution_time := elapsed },
     updateAgentProgress st agent_id "COMPLETED" (some response))
  | .error e =>
    ({ agent_id := agent_id, status := "error", response := "Error: " ++ e,
       execution_time := 0 },
     updateAgentProgress st agent_id ("FAILED: " ++ e) Option.none)

/-- The labeled-response block built at orchestrator.py lines 232-234. -/
def agentResponsesText : Nat → List String → String
  | _, [] => ""
  | i, r :: rest =>
    "=== AGENT " ++ natRepr i ++ " RESPONSE ===\n" ++ r ++ "\n\n" ++
      agentResponsesText (i + 1) rest

/-- The synthesis prompt (orchestrator.py lines 237-241): the template has
the two substitution fields `\x7bnum_responses\x7d` and
`\x7bagent_responses\x7d`. -/
def consensusPrompt (tmpl : String) (n : Nat) (agent_responses : String) : String :=
  strReplace (strReplace tmpl "\x7bnum_responses\x7d" (natRepr n))
    "\x7bagent_responses\x7d" agent_responses

/-- The concatenation fallback lines (orchestrator.py lines 254-258 and
265-269). -/
def concatLines : Nat → List String → List String
  | _, [] => []
  | i, r :: rest =>
    ("=== Agent " ++ natRepr i ++ " Response ===") :: r :: "" :: concatLines (i + 1) rest

/-- The concatenation fallback (orchestrator.py lines 253-259, 264-270). -/
def concatFallback (valid_responses : List String) : String :=
  pyStrip (pyJoin "\n" (concatLines 1 valid_responses))

/-- `TaskOrchestrator._aggregate_consensus` (orchestrator.py lines 215-270).
`synth` models the fresh tool-free synthesis agent run (an `error` is a
raised exception). -/
def aggregateConsensus (synth : String → Except String String) (tmpl : String)
    (responses : List String) : String :=
  let valid_responses :=
    (responses.filter (fun r => r != "" && pyStrip r != "")).map (fun r => pyStrip r)
  match valid_responses with
  | [] => "The agents processed the request but did not provide meaningful responses."
  | [x] => x
  | _ =>
    let text := agentResponsesText 1 valid_responses
    let prompt := consensusPrompt tmpl valid_responses.length text
    match synth prompt with
    | .ok final_answer =>
      if final_answer != "" && pyStrip final_answer != "" then pyStrip final_answer
      else concatFallback valid_responses
    | .error _ => concatFallback valid_responses

/-- `TaskOrchestrator.aggregate_results` (orchestrator.py lines 170-213). -/
def aggregateResults (synth : String → Except String String) (tmpl : String)
    (aggregation_strategy : String) (agent_results : List AgentRes) : String :=
  let successful_results := agent_results.filter (fun r =>
    r.status == "success" && r.response != "" &&
      (let response := pyStrip r.response
       response != "" && !pyStartsWith response "Error:" && decide (10 < response.length)))
  let successful_results :=
    if successful_results.isEmpty then
      agent_results.filter (fun r =>
        r.status == "success" && r.response != "" &&
          (let response := pyStrip r.response
           response != "" && !pyStartsWith response "Error:"))
    else successful_results
  if successful_results.isEmpty then
    "All agents failed to provide meaningful results. Please try again with a different question."
  else
    let responses :=
      (successful_results.map (fun r => pyStrip r.response)).filter (fun s => s != "")
    if responses.isEmpty then
      "The agents processed the request but did not provide meaningful responses."
    else
      -- both the "consensus" branch and the default call `_aggregate_consensus`
      aggregateConsensus synth tmpl responses

/-! ### orchestrator.py: orchestrate (collection after the global wait)

The thread pool and `concurrent.futures.wait` are real concurrency and are
abstracted by their observable outcome: the partition of the submitted agent
ids into `doneIds` (futures completed before the deadline, in the arbitrary
set-iteration order of the `done` loop) and `notDoneIds` (still running at
the deadline).  Everything after the `wait` call is deterministic and is
embedded faithfully. -/

/-- The timeout response string (orchestrator.py line 331). -/
def timeoutResponse (agent_id task_timeout : Nat) : String :=
  "Agent " ++ natRepr (agent_id + 1) ++ " timed out after " ++
    natRepr task_timeout ++ " seconds."

/-- The timeout entry appended for an abandoned agent
(orchestrator.py lines 328-333). -/
def timeoutEntry (i task_timeout : Nat) : AgentRes :=
  { agent_id := i, status := "timeout",
    response := timeoutResponse i task_timeout,
    execution_time := (task_timeout : ℚ) }

/-- Result collection of `TaskOrchestrator.orchestrate` (orchestrator.py
lines 290-333): initial `QUEUED` progress, the completed futures (each of
which ran `run_agent_parallel`), then the timed-out futures. -/
def orchestrateCollect (agentRuns : Nat → Nat → Except String String)
    (elapsed : Nat → ℚ) (num_agents task_timeout : Nat)
    (doneIds notDoneIds : List Nat) : List AgentRes × OrchState :=
  let st0 : OrchState :=
    { agent_progress := (List.range num_agents).map (fun i => (i, "QUEUED")),
      agent_results := [] }
  let acc := doneIds.foldl
    (fun (acc : List AgentRes × OrchState) i =>
      let r := runAgentParallel (agentRuns i) (elapsed i) acc.2 i
      (acc.1 ++ [r.1], r.2))
    ([], st0)
  notDoneIds.foldl
    (fun (acc : List AgentRes × OrchState) i =>
      (acc.1 ++ [timeoutEntry i task_timeout],
       updateAgentProgress acc.2 i "TIMEOUT" Option.none))
    acc

/-- The result sort (orchestrator.py line 343): stable sort by agent id. -/
def sortResults (results : List AgentRes) : List AgentRes :=
  results.insertionSort (fun a b => a.agent_id ≤ b.agent_id)

/-- `TaskOrchestrator.orchestrate` from the end of the wait to the returned
string (orchestrator.py lines 305-348).  Decomposition happened before the
fan-out and does not affect this phase. -/
def orchestrateFromWait (synth : String → Except String String) (tmpl : String)
    (aggregation_strategy : String) (agentRuns : Nat → Nat → Except String String)
    (elapsed : Nat → ℚ) (num_agents task_timeout : Nat)
    (doneIds notDoneIds : List Nat) : String :=
  let c := orchestrateCollect agentRuns elapsed num_agents task_timeout doneIds notDoneIds
  aggregateResults synth tmpl aggregation_strategy (sortResults c.1)

/-- Progress lookup (a read of the progress dict at one key). -/
def progLookup (l : List (Nat × String)) (k : Nat) : Option String :=
  (l.find? (fun p => p.1 == k)).map (fun p => p.2)

/-! ### Helper lemmas: strings and joins -/

theorem str_ne_empty_iff (s : String) : s ≠ "" ↔ s.data ≠ [] := by
  constructor
  · intro h hdata
    exact h (String.ext_iff.mpr (by simpa using hdata))
  · intro h heq
    exact h (by simpa using String.ext_iff.mp heq)

theorem append_ne_empty_left (s t : String) (h : s ≠ "") : s ++ t ≠ "" := by
  rw [str_ne_empty_iff] at h ⊢
  rw [String.data_append]
  simp [h]

theorem pyJoin_ne_empty (sep : String) :
    ∀ l : List String, l ≠ [] → (∀ x ∈ l, x ≠ "") → pyJoin sep l ≠ ""
  | [], hl, _ => absurd rfl hl
  | [x], _, h => by simpa [pyJoin] using h x (by simp)
  | x :: y :: xs, _, h => by
    have hx : x ≠ "" := h x (by simp)
    simpa [pyJoin] using append_ne_empty_left _ _ (append_ne_empty_left x sep hx)

/-! ### Helper lemmas: deduplication -/

theorem dedupGo_eq_append (rf : String → String → ℚ) :
    ∀ blocks kept norms, ∃ ex, dedupGo rf blocks kept norms = kept ++ ex := by
  intro blocks
  induction blocks with
  | nil => intro kept norms; exact ⟨[], by simp [dedupGo]⟩
  | cons b rest ih =>
    intro kept norms
    by_cases hb : pyStrip b = ""
    · simpa [dedupGo, hb] using ih kept norms
    · by_cases hdup : isDupBlock rf (normalizeBlock (pyStrip b)) norms = true
      · simpa [dedupGo, hb, hdup] using ih kept norms
      · obtain ⟨ex, hex⟩ := ih (kept ++ [pyStrip b]) (norms ++ [normalizeBlock (pyStrip b)])
        refine ⟨pyStrip b :: ex, ?_⟩
        simp only [dedupGo, hb, hdup]
        simp only [if_neg hb, Bool.not_eq_true] at *
        simp [hex]

theorem dedupGo_ne_nil (rf : String → String → ℚ) :
    ∀ blocks kept norms, (kept = [] → norms = []) →
      (kept ≠ [] ∨ ∃ b ∈ blocks, pyStrip b ≠ "") →
      dedupGo rf blocks kept norms ≠ [] := by
  intro blocks
  induction blocks with
  | nil =>
    intro kept norms _ hd
    rcases hd with hk | ⟨b, hb, _⟩
    · simpa [dedupGo] using hk
    · simp at hb
  | cons b rest ih =>
    intro kept norms hinv hd
    by_cases hb : pyStrip b = ""
    · simp only [dedupGo, hb, if_pos rfl]
      apply ih kept norms hinv
      rcases hd with hk | ⟨x, hx, hxne⟩
      · exact Or.inl hk
      · rcases List.mem_cons.mp hx with rfl | hx
        · exact absurd hb hxne
        · exact Or.inr ⟨x, hx, hxne⟩
    · by_cases hdup : isDupBlock rf (normalizeBlock (pyStrip b)) norms = true
      · have hkept : kept ≠ [] := by
          intro hk
          rw [hinv hk] at hdup
          simp [isDupBlock] at hdup
        simp only [dedupGo, if_neg hb, hdup, if_true]
        exact ih kept norms hinv (Or.inl hkept)
      · simp only [Bool.not_eq_true] at hdup
        simp only [dedupGo, if_neg hb, hdup, Bool.false_eq_true, if_false]
        obtain ⟨ex, hex⟩ := dedupGo_eq_append rf rest (kept ++ [pyStrip b])
          (norms ++ [normalizeBlock (pyStrip b)])
        rw [hex]
        simp

theorem dedupGo_mem_ne (rf : String → String → ℚ) :
    ∀ blocks kept norms, (∀ x ∈ kept, x ≠ "") →
      ∀ x ∈ dedupGo rf blocks kept norms, x ≠ "" := by
  intro blocks
  induction blocks with
  | nil => intro kept norms hk; simpa [dedupGo] using hk
  | cons b rest ih =>
    intro kept norms hk x hx
    by_cases hb : pyStrip b = ""
    · exact ih kept norms hk x (by simpa [dedupGo, hb] using hx)
    · by_cases hdup : isDupBlock rf (normalizeBlock (pyStrip b)) norms = true
      · exact ih kept norms hk x (by simpa [dedupGo, hb, hdup] using hx)
      · simp only [Bool.not_eq_true] at hdup
        refine ih (kept ++ [pyStrip b]) (norms ++ [normalizeBlock (pyStrip b)]) ?_ x ?_
        · intro y hy
          rcases List.mem_append.mp hy with hy | hy
          · exact hk y hy
          · have hyb : y = pyStrip b := by simpa using hy
            rw [hyb]
            exact hb
        · simpa [dedupGo, hb, hdup] using hx

theorem finalize_ne_empty (rf : String → String → ℚ) (blocks : List String)
    (h : ∃ b ∈ blocks, pyStrip b ≠ "") : finalizeResponseContent rf blocks ≠ "" := by
  obtain ⟨b, hb, hbne⟩ := h
  have hblocks : blocks ≠ [] := by rintro rfl; simp at hb
  have hres : dedupGo rf blocks [] [] ≠ [] :=
    dedupGo_ne_nil rf blocks [] [] (fun _ => rfl) (Or.inr ⟨b, hb, hbne⟩)
  have hmem : ∀ x ∈ dedupGo rf blocks [] [], x ≠ "" :=
    dedupGo_mem_ne rf blocks [] [] (by simp)
  rcases blocks with _ | ⟨b0, brest⟩
  · exact absurd rfl hblocks
  · simpa [finalizeResponseContent] using pyJoin_ne_empty "\n\n" _ hres hmem

/-! ### Concrete test fixtures (mirroring src/tests) -/

/-- The completion-tool arguments string of the test fixtures:
`json.dumps(\x7b"task_summary": "done", "completion_message":
"short completion payload"\x7d)`. -/
def demoArgsStr : String :=
  "\x7b\"task_summary\": \"done\", \"completion_message\": \"short completion payload\"\x7d"

/-- The decoded form of `demoArgsStr`. -/
def demoArgsDict : PyVal :=
  .pdict [("task_summary", .str "done"),
          ("completion_message", .str "short completion payload")]

/-- A `json.loads` model that knows the two JSON texts the fixtures use. -/
def demoLoads : String → Except String PyVal := fun s =>
  if s = demoArgsStr then .ok demoArgsDict
  else if s = "\x7b\x7d" then .ok (.pdict [])
  else .error "Expecting value: line 1 column 1 (char 0)"

/-- The two fake tools of the behavior tests. -/
def demoTools : List (String × ToolFn) :=
  [("mark_task_complete", fun args =>
      .ok (.pdict [("ok", .bool true), ("tool", .str "mark_task_complete"),
                   ("args", .pdict args)])),
   ("search_web", fun args =>
      .ok (.pdict [("ok", .bool true), ("tool", .str "search_web"),
                   ("args", .pdict args)]))]

/-- A similarity oracle (never consulted on blocks under 100 characters). -/
def demoRatio : String → String → ℚ := fun _ _ => 0

/-- The concrete agent environment used by the scenario theorems. -/
def demoEnv : AgentEnv := ⟨demoRatio, demoLoads, demoTools, fun _ _ => 0⟩

/-- The source-default agent configuration. -/
def demoCfg : AgentCfg := {}

/-- A provider response carrying assistant content and a raw tool-call
value (the fixture shape of `assistant_response` in the tests). -/
def assistantResponse (content : String) (tool_calls : PyVal) : PyVal :=
  .pdict [("choices", .list
    [.pdict [("message", .pdict
      [("content", .str content), ("tool_calls", tool_calls)])]])]

/-- The completion tool call of the test fixtures. -/
def completionToolCall (call_id : String) : PyVal :=
  .pdict [("id", .str call_id), ("type", .str "function"),
          ("function", .pdict [("name", .str "mark_task_complete"),
                               ("arguments", .str demoArgsStr)])]

/-- A plain `search_web` tool call with empty arguments. -/
def searchToolCall : PyVal :=
  .pdict [("id", .str "call_s"), ("type", .str "function"),
          ("function", .pdict [("name", .str "search_web"),
                               ("arguments", .str "\x7b\x7d")])]

/-- A provider that replays a finite script and defers to a tail beyond it. -/
def scriptProvider (script : List PyVal) (tail : Nat → PyVal) : Nat → PyVal :=
  fun n =>
    match script.get? n with
    | some r => r
    | Option.none => tail n

/-! ### Claim C1 -/

/-- C1: the claim says `run_agent_parallel` wraps agent execution in a
bounded retry policy, so that with retry attempts ≥ 2 a transient failure on
the first attempt followed by a success yields `status: success` with the
second attempt response.  The code performs no retry at all: with an agent
whose attempt 0 raises `rate limit exceeded` and whose attempt 1 would
succeed, the result has `status: error`, response `Error: rate limit
exceeded`, and progress `FAILED: rate limit exceeded` — the second attempt
is never consulted.  (The repo test
`test_run_agent_parallel_retries_transient_failures` asserts the claimed
behavior and fails on this code.) -/
theorem C1_run_agent_parallel_does_not_retry :
    (runAgentParallel
        (fun n => if n == 0 then .error "rate limit exceeded"
                  else .ok "Recovered response for: subtask")
        1 ⟨[], []⟩ 0).1.status = "error" ∧
    (runAgentParallel
        (fun n => if n == 0 then .error "rate limit exceeded"
                  else .ok "Recovered response for: subtask")
        1 ⟨[], []⟩ 0).1.response = "Error: rate limit exceeded" ∧
    progLookup (runAgentParallel
        (fun n => if n == 0 then .error "rate limit exceeded"
                  else .ok "Recovered response for: subtask")
        1 ⟨[], []⟩ 0).2.agent_progress 0 = some "FAILED: rate limit exceeded" :=
  ⟨rfl, rfl, rfl⟩

/-! ### Claim C2 -/

/-- C2: the claim says aggregation over all-failed results yields a message
with an "all agents failed" marker plus a list of top failure reasons, and a
provider-specific remediation hint for authentication failures.  The code
returns only the fixed sentence `All agents failed to provide meaningful
results. Please try again with a different question.` — no failure reasons
and no provider hint — both for generic errors and for a groq
authentication error.  (The repo tests
`test_aggregate_results_shows_failure_reasons` and
`test_aggregate_results_auth_failure_message_for_groq` assert the claimed
behavior and fail on this code.) -/
theorem C2_aggregate_results_fixed_failure_message :
    aggregateResults (fun _ => .error "unused") "tmpl" "consensus"
      [⟨0, "error", "Error: rate limit exceeded", 0⟩,
       ⟨1, "error", "Error: connection timeout", 0⟩] =
      "All agents failed to provide meaningful results. Please try again with a different question." ∧
    aggregateResults (fun _ => .error "unused") "tmpl" "consensus"
      [⟨0, "error",
        "Error: LLM call failed (GroqAPIError): Groq authentication failed. Check your API key: Error code: 401", 0⟩] =
      "All agents failed to provide meaningful results. Please try again with a different question." :=
  ⟨rfl, rfl⟩

/-! ### Claim C3 -/

/-- C3: a `mark_task_complete` call encountered while no non-empty content
block has been accumulated and no non-completion tool has been executed is
skipped — the batch step leaves the state unchanged (no `ToolResult`
appended) and does not mark the run completed.  In particular, for the
scripted sequence (turn 1: completion call only; turn 2: content `Useful
analysis chunk.`; turn 3: completion call) the run returns exactly
`Useful analysis chunk.`, determined by the first three provider responses
alone. -/
theorem C3_premature_completion_ignored :
    (∀ (E : AgentEnv) (tc : NormalizedCall) (st : RunState),
        pyEqStr tc.name "mark_task_complete" = true →
        st.full_response_content = [] →
        st.non_completion_tool_calls = 0 →
        processToolCall E tc (false, st) = (false, st)) ∧
    (∀ provider : Nat → PyVal,
        provider 0 = assistantResponse "" (.list [completionToolCall "call_early"]) →
        provider 1 = assistantResponse "Useful analysis chunk." (.list []) →
        provider 2 = assistantResponse "" (.list [completionToolCall "call_final"]) →
        run demoEnv demoCfg provider "research topic" = .ok "Useful analysis chunk.") := by
  constructor
  · intro E tc st hname hfull hnctc
    simp [processToolCall, hname, hfull, hnctc]
  · intro provider h0 h1 h2
    have hp : provider = scriptProvider
        [assistantResponse "" (.list [completionToolCall "call_early"]),
         assistantResponse "Useful analysis chunk." (.list []),
         assistantResponse "" (.list [completionToolCall "call_final"])] provider := by
      funext n
      match n with
      | 0 => exact h0
      | 1 => exact h1
      | 2 => exact h2
      | (n + 3) => rfl
    rw [hp]
    rfl

/-- Witness for C3 at concrete inputs. -/
theorem C3_premature_completion_ignored_witness :
    processToolCall demoEnv
        ⟨.str "call_early", .str "mark_task_complete", demoArgsStr⟩
        (false, ⟨[], [], 0, 0, Option.none⟩) =
      (false, ⟨[], [], 0, 0, Option.none⟩) ∧
    run demoEnv demoCfg
        (scriptProvider
          [assistantResponse "" (.list [completionToolCall "call_early"]),
           assistantResponse "Useful analysis chunk." (.list []),
           assistantResponse "" (.list [completionToolCall "call_final"])]
          (fun _ => .none))
        "research topic" = .ok "Useful analysis chunk." :=
  ⟨C3_premature_completion_ignored.1 demoEnv _ _ rfl rfl rfl,
   C3_premature_completion_ignored.2 _ rfl rfl rfl⟩

/-! ### Stripping is idempotent -/

theorem head?_dropWhile_false (p : Char → Bool) :
    ∀ (l : List Char) (a : Char), (l.dropWhile p).head? = some a → p a = false := by
  intro l
  induction l with
  | nil => intro a h; simp [List.dropWhile] at h
  | cons c rest ih =>
    intro a h
    by_cases hc : p c = true
    · rw [List.dropWhile_cons_of_pos hc] at h
      exact ih a h
    · rw [List.dropWhile_cons_of_neg hc] at h
      simp only [List.head?_cons, Option.some.injEq] at h
      rw [← h]
      simpa using hc

theorem dropWhile_eq_self_of_head (p : Char → Bool) (l : List Char)
    (h : ∀ a, l.head? = some a → p a = false) : l.dropWhile p = l := by
  cases l with
  | nil => rfl
  | cons c rest =>
    have := h c rfl
    simp [List.dropWhile_cons, this]

theorem pyStrip_idem (s : String) : pyStrip (pyStrip s) = pyStrip s := by
  show (⟨_⟩ : String) = ⟨_⟩
  rcases hB : (s.data.dropWhile Char.isWhitespace).reverse.dropWhile Char.isWhitespace
    with _ | ⟨b, bt⟩
  · simp [pyStrip, hB]
  · rcases hA : s.data.dropWhile Char.isWhitespace with _ | ⟨a, at0⟩
    · rw [hA] at hB; simp at hB
    · have hheadA : Char.isWhitespace a = false :=
        head?_dropWhile_false _ s.data a (by rw [hA]; rfl)
      have hheadB : Char.isWhitespace b = false :=
        head?_dropWhile_false _ (s.data.dropWhile Char.isWhitespace).reverse b
          (by rw [hB]; rfl)
      have hsuffix : ∃ pre, pre ++ (b :: bt) =
          (s.data.dropWhile Char.isWhitespace).reverse := by
        have := List.dropWhile_suffix (l := (s.data.dropWhile Char.isWhitespace).reverse)
          (p := Char.isWhitespace)
        rw [hB] at this
        exact this
      obtain ⟨pre, hpre⟩ := hsuffix
      have hlastB : (b :: bt).getLast? = some a := by
        have h1 : (pre ++ (b :: bt)).getLast? = (b :: bt).getLast? :=
          List.getLast?_append_of_ne_nil pre (by simp)
        rw [hpre] at h1
        rw [← h1, List.getLast?_reverse, hA]
        rfl
      have step1 : (b :: bt).reverse.dropWhile Char.isWhitespace = (b :: bt).reverse := by
        apply dropWhile_eq_self_of_head
        intro x hx
        rw [List.head?_reverse, hlastB] at hx
        rw [← Option.some.inj hx]
        exact hheadA
      have step2 : (b :: bt).dropWhile Char.isWhitespace = b :: bt := by
        apply dropWhile_eq_self_of_head
        intro x hx
        simp only [List.head?_cons, Option.some.injEq] at hx
        rw [← hx]
        exact hheadB
      simp only [pyStrip, hB, String.ext_iff]
      rw [step1, List.reverse_reverse, step2]

theorem pyStrip_pyStrip_ne (s : String) (h : pyStrip s ≠ "") :
    pyStrip (pyStrip s) ≠ "" := by
  rw [pyStrip_idem]
  exact h

/-! ### Invariants of the run loop -/

/-- Invariant of the run state: accumulated blocks strip to non-empty, and
any captured completion fallback is non-empty. -/
def StInv (st : RunState) : Prop :=
  (∀ b ∈ st.full_response_content, pyStrip b ≠ "") ∧
  (∀ m, st.completion_message_fallback = some m → m ≠ "")

theorem completionFallbackUpdate_inv (st : RunState) (cm : PyVal)
    (h : StInv st) : StInv (completionFallbackUpdate st cm) := by
  obtain ⟨h1, h2⟩ := h
  unfold completionFallbackUpdate
  split
  · exact ⟨h1, h2⟩
  · split
    · rename_i s hcond
      refine ⟨h1, fun m hm => ?_⟩
      have hm2 : some (pyStrip s) = some m := hm
      rw [← Option.some.inj hm2]
      exact hcond
    · exact ⟨h1, h2⟩
  · dsimp only
    split
    · rename_i hcond
      refine ⟨h1, fun m hm => ?_⟩
      have hm2 : some (pyStrip (dumpsD cm)) = some m := hm
      rw [← Option.some.inj hm2]
      exact hcond
    · exact ⟨h1, h2⟩

theorem processToolCall_inv (E : AgentEnv) (tc : NormalizedCall)
    (acc : Bool × RunState) (h : StInv acc.2) :
    StInv (processToolCall E tc acc).2 := by
  obtain ⟨h1, h2⟩ := h
  unfold processToolCall
  dsimp only
  rcases hname : pyEqStr tc.name "mark_task_complete" with _ | _
  · simp only [hname, Bool.false_eq_true, if_false]
    exact ⟨h1, h2⟩
  · simp only [hname, if_true]
    by_cases hguard :
        (!(decide (0 < acc.2.full_response_content.length) ||
           decide (0 < acc.2.non_completion_tool_calls))) = true
    · rw [if_pos hguard]
      exact ⟨h1, h2⟩
    · rw [if_neg hguard]
      exact completionFallbackUpdate_inv _ _ ⟨h1, h2⟩

theorem foldl_processToolCall_inv (E : AgentEnv) :
    ∀ (tcs : List NormalizedCall) (acc : Bool × RunState), StInv acc.2 →
      StInv (tcs.foldl (fun a tc => processToolCall E tc a) acc).2 := by
  intro tcs
  induction tcs with
  | nil => intro acc h; simpa using h
  | cons tc rest ih =>
    intro acc h
    simpa [List.foldl_cons] using ih _ (processToolCall_inv E tc acc h)

theorem runLoop_ok_ne (E : AgentEnv) (cfg : AgentCfg) (provider : Nat → PyVal) :
    ∀ (fuel callIdx : Nat) (st : RunState), StInv st →
      ∀ out, runLoop E cfg provider fuel callIdx st = .ok out → out ≠ "" := by
  intro fuel
  induction fuel with
  | zero =>
    intro callIdx st hinv out hrun
    obtain ⟨h1, h2⟩ := hinv
    simp only [runLoop, finalReturn] at hrun
    split at hrun
    · rename_i hne
      simp only [Except.ok.injEq] at hrun
      rw [← hrun]
      apply finalize_ne_empty
      rcases hfull : st.full_response_content with _ | ⟨b0, bs⟩
      · rw [hfull] at hne; simp at hne
      · exact ⟨b0, by simp, h1 b0 (by rw [hfull]; simp)⟩
    · split at hrun
      · rename_i m hm
        simp only [Except.ok.injEq] at hrun
        rw [← hrun]
        exact h2 m hm
      · simp only [Except.ok.injEq] at hrun
        rw [← hrun]
        decide
  | succ f ih =>
    intro callIdx st hinv out hrun
    simp only [runLoop] at hrun
    rcases hext : extractTurn (provider callIdx) with e | ⟨content, rawTc⟩ <;>
      rw [hext] at hrun
    · simp [bind, Except.bind] at hrun
    simp only [bind, Except.bind] at hrun
    rcases hnorm : normalizeToolCalls (E.oid callIdx) rawTc with e | tcs <;>
      rw [hnorm] at hrun
    · simp at hrun
    simp only at hrun
    set st1 : RunState := { st with messages := st.messages ++
      [({ role := "assistant", content := content, tool_calls := tcs } : Message)] } with hst1
    have hinv1 : StInv st1 := hinv
    set st2 : RunState :=
      (if content ≠ "" ∧ pyStrip content ≠ "" then
        { st1 with full_response_content := st1.full_response_content ++ [pyStrip content] }
      else st1) with hst2
    have hinv2 : StInv st2 := by
      rw [hst2]
      split
      · rename_i hcond
        refine ⟨fun b hb => ?_, hinv1.2⟩
        rcases List.mem_append.mp hb with hb | hb
        · exact hinv1.1 b hb
        · have hbc : b = pyStrip content := by simpa using hb
          rw [hbc]
          exact pyStrip_pyStrip_ne content hcond.2
      · exact hinv1
    split at hrun
    · -- tool calls present
      set st3 : RunState := { st2 with no_tool_streak := 0 } with hst3
      have hinv3 : StInv st3 := hinv2
      have hfold := foldl_processToolCall_inv E tcs (false, st3) hinv3
      split at hrun
      · -- task completed
        split at hrun
        · rename_i hne
          simp only [pure, Except.pure, Except.ok.injEq] at hrun
          rw [← hrun]
          exact hne
        · split at hrun
          · rename_i m hm
            simp only [pure, Except.pure, Except.ok.injEq] at hrun
            rw [← hrun]
            exact hfold.2 m hm
          · simp only [pure, Except.pure, Except.ok.injEq] at hrun
            rw [← hrun]
            decide
      · exact ih (callIdx + 1) _ hfold out hrun
    · -- no tool calls
      set st4 : RunState := { st2 with no_tool_streak := st2.no_tool_streak + 1 } with hst4
      have hinv4 : StInv st4 := hinv2
      split at hrun
      · split at hrun
        · rename_i hne
          simp only [pure, Except.pure, Except.ok.injEq] at hrun
          rw [← hrun]
          exact hne
        · exact ih (callIdx + 1) _ hinv4 out hrun
      · exact ih (callIdx + 1) _ hinv4 out hrun

/-! ### Claim C10 -/

/-- C10 (amended): whenever `AgentLoop.run` returns a string (does not
raise), that string is non-empty — every exit path returns deduplicated
non-empty content, a non-empty captured completion message, or one of two
non-empty literal fallback strings.  (The unamended claim — a non-empty
string for every provider-response sequence — fails because assistant
message extraction itself can raise, see the counterexample.) -/
theorem C10_run_ok_nonempty (E : AgentEnv) (cfg : AgentCfg)
    (provider : Nat → PyVal) (u : String) (out : String)
    (h : run E cfg provider u = .ok out) : out ≠ "" :=
  runLoop_ok_ne E cfg provider cfg.max_iterations 0 _
    ⟨by simp, by simp⟩ out h

/-- Witness for C10 at a concrete run. -/
theorem C10_run_ok_nonempty_witness :
    run demoEnv demoCfg
        (scriptProvider [assistantResponse "First research finding." (.list []),
          assistantResponse "Second research finding."
            (.list [completionToolCall "call_complete"])] (fun _ => .none))
        "research topic" =
      .ok "First research finding.\n\nSecond research finding." ∧
    "First research finding.\n\nSecond research finding." ≠ "" := by
  refine ⟨rfl, ?_⟩
  exact C10_run_ok_nonempty demoEnv demoCfg
    (scriptProvider [assistantResponse "First research finding." (.list []),
      assistantResponse "Second research finding."
        (.list [completionToolCall "call_complete"])] (fun _ => .none))
    "research topic" "First research finding.\n\nSecond research finding." (by rfl)

/-- Counterexample to C10 as stated: a provider that returns (without
raising) a response whose `choices` is an empty list makes `run` raise
`IndexError` out of assistant-message extraction instead of returning a
string. -/
theorem C10_run_counterexample :
    run demoEnv demoCfg (fun _ => .pdict [("choices", .list [])]) "q" =
      .error (.indexError "list index out of range") := rfl

/-! ### Claim C4: the no-tool streak -/

theorem extractTurn_assistantResponse (s : String) (tc : PyVal) :
    extractTurn (assistantResponse s tc) = .ok (s, tc) := rfl

theorem normalizeToolCalls_emptyList (ids : Nat → Nat) :
    normalizeToolCalls ids (.list []) = .ok [] := rfl

theorem ne_empty_of_pyStrip_ne (s : String) (h : pyStrip s ≠ "") : s ≠ "" := by
  intro hs
  rw [hs] at h
  exact h rfl

theorem runLoop_streak (E : AgentEnv) (cfg : AgentCfg) (provider : Nat → PyVal)
    (c : Nat → String) (t : Nat)
    (ht : max 1 cfg.finalize_after_no_tool_streak = (t : Int)) :
    ∀ (r fuel callIdx : Nat) (st : RunState),
      1 ≤ r → r ≤ fuel → st.no_tool_streak + r = t →
      (∀ i, i < r → provider (callIdx + i) = assistantResponse (c (callIdx + i)) (.list [])) →
      (∀ i, i < r → pyStrip (c (callIdx + i)) ≠ "") →
      runLoop E cfg provider fuel callIdx st =
        .ok (finalizeResponseContent E.ratioFn
          (st.full_response_content ++
            (List.range r).map (fun i => pyStrip (c (callIdx + i))))) := by
  intro r
  induction r with
  | zero =>
    intro fuel callIdx st h1
    omega
  | succ r ih =>
    intro fuel callIdx st _ hfuel hstreak hprov hne
    obtain ⟨f, rfl⟩ : ∃ f, fuel = f + 1 := ⟨fuel - 1, by omega⟩
    have hp0 : provider callIdx = assistantResponse (c callIdx) (.list []) := by
      simpa using hprov 0 (by omega)
    have hne0 : pyStrip (c callIdx) ≠ "" := by simpa using hne 0 (by omega)
    have hc0 : c callIdx ≠ "" := ne_empty_of_pyStrip_ne _ hne0
    simp only [runLoop, hp0, extractTurn_assistantResponse, normalizeToolCalls_emptyList,
      bind, Except.bind, List.isEmpty_nil, Bool.not_true, Bool.false_eq_true, if_false,
      hc0, hne0, ne_eq, not_false_eq_true, and_self, if_true, ite_true]
    rcases Nat.eq_zero_or_pos r with hr | hr
    · -- final streak turn: threshold reached, finalize and return
      subst hr
      rw [if_pos (by rw [ht]; push_cast; omega :
        ((st.no_tool_streak + 1 : Nat) : Int) ≥ max 1 cfg.finalize_after_no_tool_streak)]
      rw [if_pos (by
        apply finalize_ne_empty
        exact ⟨pyStrip (c callIdx), by simp, pyStrip_pyStrip_ne _ hne0⟩ :
        finalizeResponseContent E.ratioFn
          (st.full_response_content ++ [pyStrip (c callIdx)]) ≠ "")]
      simp only [pure, Except.pure]
      have hr1 : List.range 1 = [0] := rfl
      rw [hr1]
      simp
    · -- streak not yet at threshold: continue
      rw [if_neg (by rw [ht]; push_cast; omega :
        ¬ ((st.no_tool_streak + 1 : Nat) : Int) ≥ max 1 cfg.finalize_after_no_tool_streak)]
      have hrec := ih (f) (callIdx + 1)
        { messages := st.messages ++
            [({ role := "assistant", content := c callIdx, tool_calls := [] } : Message)],
          full_response_content := st.full_response_content ++ [pyStrip (c callIdx)],
          non_completion_tool_calls := st.non_completion_tool_calls,
          no_tool_streak := st.no_tool_streak + 1,
          completion_message_fallback := st.completion_message_fallback }
        (by omega) (by omega) (by simp; omega)
        (fun i hi => by
          have := hprov (i + 1) (by omega)
          simpa [Nat.add_assoc, Nat.add_comm 1 i] using this)
        (fun i hi => by
          have := hne (i + 1) (by omega)
          simpa [Nat.add_assoc, Nat.add_comm 1 i] using this)
      rw [hrec]
      congr 1
      congr 1
      simp only [List.append_assoc, List.range_succ_eq_map, List.map_cons, List.map_map]
      congr 1
      simp only [Nat.add_zero, List.singleton_append]
      congr 1
      apply List.map_congr_left
      intro i hi
      simp only [Function.comp_apply, Nat.succ_eq_add_one]
      have harith : callIdx + 1 + i = callIdx + (i + 1) := by omega
      rw [harith]

/-- C4: a turn with no normalized tool calls increments the no-tool streak
(and a turn with tool calls resets it to 0); when the streak reaches the
threshold `max 1 finalize_after_no_tool_streak`, the run finalizes
immediately with the deduplicated accumulated content.  Conjunct 1: for any
threshold `t ≥ 1` within the iteration budget, `t` consecutive no-tool turns
with non-blank contents finalize after exactly `t` provider calls (later
responses are never consulted), returning the deduplicated stripped
contents.  Conjunct 2 (reset): with the default threshold 2, a no-tool turn,
then a tool-call turn, then two more no-tool turns finalize only after the
fourth call — the tool-call turn reset the streak. -/
theorem C4_no_tool_streak_finalizes :
    (∀ (E : AgentEnv) (cfg : AgentCfg) (provider : Nat → PyVal) (u : String)
        (c : Nat → String) (t : Nat),
        1 ≤ t →
        max 1 cfg.finalize_after_no_tool_streak = (t : Int) →
        t ≤ cfg.max_iterations →
        (∀ i, i < t → provider i = assistantResponse (c i) (.list [])) →
        (∀ i, i < t → pyStrip (c i) ≠ "") →
        run E cfg provider u =
          .ok (finalizeResponseContent E.ratioFn
            ((List.range t).map (fun i => pyStrip (c i))))) ∧
    (∀ provider : Nat → PyVal,
        provider 0 = assistantResponse "A." (.list []) →
        provider 1 = assistantResponse "" (.list [searchToolCall]) →
        provider 2 = assistantResponse "B." (.list []) →
        provider 3 = assistantResponse "C." (.list []) →
        run demoEnv demoCfg provider "q" = .ok "A.\n\nB.\n\nC.") := by
  constructor
  · intro E cfg provider u c t h1 ht hfuel hprov hne
    have h := runLoop_streak E cfg provider c t ht t cfg.max_iterations 0
      { messages :=
          [{ role := "system", content := cfg.system_prompt },
           { role := "user", content := u }],
        full_response_content := [],
        non_completion_tool_calls := 0,
        no_tool_streak := 0,
        completion_message_fallback := Option.none }
      h1 hfuel (by simp)
      (fun i hi => by simpa using hprov i hi)
      (fun i hi => by simpa using hne i hi)
    simpa [run] using h
  · intro provider h0 h1 h2 h3
    have hp : provider = scriptProvider
        [assistantResponse "A." (.list []),
         assistantResponse "" (.list [searchToolCall]),
         assistantResponse "B." (.list []),
         assistantResponse "C." (.list [])] provider := by
      funext n
      match n with
      | 0 => exact h0
      | 1 => exact h1
      | 2 => exact h2
      | 3 => exact h3
      | (n + 4) => rfl
    rw [hp]
    rfl

/-- Witness for C4: the spec scenario (default threshold 2, two no-tool
turns with the draft contents) and the reset scenario, both at concrete
providers. -/
theorem C4_no_tool_streak_finalizes_witness :
    run demoEnv demoCfg
        (scriptProvider
          [assistantResponse "Draft analysis part one." (.list []),
           assistantResponse "Draft analysis part two." (.list [])]
          (fun _ => .none)) "research topic" =
      .ok "Draft analysis part one.\n\nDraft analysis part two." ∧
    run demoEnv demoCfg
        (scriptProvider
          [assistantResponse "A." (.list []),
           assistantResponse "" (.list [searchToolCall]),
           assistantResponse "B." (.list []),
           assistantResponse "C." (.list [])]
          (fun _ => .none)) "q" = .ok "A.\n\nB.\n\nC." := by
  constructor
  · have h := C4_no_tool_streak_finalizes.1 demoEnv demoCfg
      (scriptProvider
        [assistantResponse "Draft analysis part one." (.list []),
         assistantResponse "Draft analysis part two." (.list [])]
        (fun _ => .none)) "research topic"
      (fun i => if i == 0 then "Draft analysis part one." else "Draft analysis part two.")
      2 (by decide) (by decide) (by decide)
      (fun i hi => by interval_cases i <;> rfl)
      (fun i hi => by interval_cases i <;> decide)
    rw [h]
    rfl
  · exact C4_no_tool_streak_finalizes.2
      (scriptProvider
        [assistantResponse "A." (.list []),
         assistantResponse "" (.list [searchToolCall]),
         assistantResponse "B." (.list []),
         assistantResponse "C." (.list [])]
        (fun _ => .none)) rfl rfl rfl rfl

/-! ### Claim C6: deduplication -/

/-- The duplicate relation as the claim words it: identical normalized forms
(lowercased, whitespace-collapsed), or both normalized forms at least 100
characters with similarity ratio at least 0.94. -/
def dupPairB (rf : String → String → ℚ) (t k : String) : Bool :=
  normalizeBlock t == normalizeBlock k ||
    (decide (100 ≤ (normalizeBlock t).length) &&
      (decide (100 ≤ (normalizeBlock k).length) &&
        decide ((94 : ℚ) / 100 ≤ rf (normalizeBlock t) (normalizeBlock k))))

/-- Deduplication as the claim words it: walk the blocks in order and keep a
trimmed block iff it is non-empty after trimming and no previously kept
block duplicates it; first occurrence wins, relative order is preserved. -/
def dedupSpec (rf : String → String → ℚ) : List String → List String → List String
  | [], kept => kept
  | b :: rest, kept =>
    let t := pyStrip b
    if t ≠ "" ∧ kept.all (fun k => !dupPairB rf t k) then
      dedupSpec rf rest (kept ++ [t])
    else dedupSpec rf rest kept

theorem isDupBlock_map (rf : String → String → ℚ) (t : String) (kept : List String) :
    isDupBlock rf (normalizeBlock t) (kept.map normalizeBlock) =
      kept.any (fun k => dupPairB rf t k) := by
  simp only [isDupBlock, dupPairB, List.any_map]
  rfl

theorem all_not_eq_not_any {α : Type} (l : List α) (p : α → Bool) :
    l.all (fun a => !p a) = !l.any p := by
  induction l with
  | nil => rfl
  | cons a rest ih => simp [List.all_cons, List.any_cons, ih]

theorem dedupGo_eq_dedupSpec (rf : String → String → ℚ) :
    ∀ blocks kept, dedupGo rf blocks kept (kept.map normalizeBlock) =
      dedupSpec rf blocks kept := by
  intro blocks
  induction blocks with
  | nil => intro kept; rfl
  | cons b rest ih =>
    intro kept
    by_cases hb : pyStrip b = ""
    · rw [show dedupGo rf (b :: rest) kept (kept.map normalizeBlock) =
          dedupGo rf rest kept (kept.map normalizeBlock) by
            simp [dedupGo, hb]]
      rw [show dedupSpec rf (b :: rest) kept = dedupSpec rf rest kept by
            simp only [dedupSpec]
            rw [if_neg (by simp [hb])]]
      exact ih kept
    · rcases hany : kept.any (fun k => dupPairB rf (pyStrip b) k) with _ | _
      · -- no previously kept duplicate: both keep the block
        have hdup : isDupBlock rf (normalizeBlock (pyStrip b)) (kept.map normalizeBlock)
            = false := by rw [isDupBlock_map]; exact hany
        rw [show dedupGo rf (b :: rest) kept (kept.map normalizeBlock) =
            dedupGo rf rest (kept ++ [pyStrip b])
              (kept.map normalizeBlock ++ [normalizeBlock (pyStrip b)]) by
              simp only [dedupGo, if_neg hb, hdup, Bool.false_eq_true, if_false]]
        rw [show dedupSpec rf (b :: rest) kept =
            dedupSpec rf rest (kept ++ [pyStrip b]) by
              simp only [dedupSpec]
              rw [if_pos ⟨hb, by rw [all_not_eq_not_any, hany]; rfl⟩]]
        have hmap : kept.map normalizeBlock ++ [normalizeBlock (pyStrip b)] =
            (kept ++ [pyStrip b]).map normalizeBlock := by simp
        rw [hmap]
        exact ih (kept ++ [pyStrip b])
      · -- duplicate: both skip
        have hdup : isDupBlock rf (normalizeBlock (pyStrip b)) (kept.map normalizeBlock)
            = true := by rw [isDupBlock_map]; exact hany
        rw [show dedupGo rf (b :: rest) kept (kept.map normalizeBlock) =
            dedupGo rf rest kept (kept.map normalizeBlock) by
              simp only [dedupGo, if_neg hb, hdup, if_true]]
        rw [show dedupSpec rf (b :: rest) kept = dedupSpec rf rest kept by
              simp only [dedupSpec]
              rw [if_neg (by rw [all_not_eq_not_any, hany]; simp)]]
        exact ih kept

theorem dedupSpec_append_sublist (rf : String → String → ℚ) :
    ∀ blocks kept, ∃ ex, dedupSpec rf blocks kept = kept ++ ex ∧
      ex.Sublist (blocks.map pyStrip) := by
  intro blocks
  induction blocks with
  | nil => intro kept; exact ⟨[], by simp [dedupSpec], by simp⟩
  | cons b rest ih =>
    intro kept
    by_cases hc : pyStrip b ≠ "" ∧
        (kept.all (fun k => !dupPairB rf (pyStrip b) k)) = true
    · obtain ⟨ex, hex, hsub⟩ := ih (kept ++ [pyStrip b])
      refine ⟨pyStrip b :: ex, ?_, ?_⟩
      · rw [show dedupSpec rf (b :: rest) kept =
            dedupSpec rf rest (kept ++ [pyStrip b]) by
              simp only [dedupSpec]; rw [if_pos hc]]
        rw [hex]
        simp
      · simpa using List.Sublist.cons₂ (pyStrip b) hsub
    · obtain ⟨ex, hex, hsub⟩ := ih kept
      refine ⟨ex, ?_, ?_⟩
      · rw [show dedupSpec rf (b :: rest) kept = dedupSpec rf rest kept by
              simp only [dedupSpec]; rw [if_neg hc]]
        exact hex
      · simpa using List.Sublist.cons (pyStrip b) hsub

/-- C6: the source deduplication (`_finalize_response_content`) refines the
claim statement: the result is the blank-line join of the list obtained by
keeping each trimmed block iff it is non-empty after trimming and no
previously kept block has an identical normalized (lowercased,
whitespace-collapsed) form nor — when both normalized forms are at least
100 characters — a similarity ratio of at least 0.94 with it; kept blocks
form a sublist of the trimmed blocks, so first occurrences win and relative
order is preserved. -/
theorem C6_finalize_matches_dedup_spec :
    ∀ (rf : String → String → ℚ) (blocks : List String),
      finalizeResponseContent rf blocks = pyJoin "\n\n" (dedupSpec rf blocks []) ∧
      (dedupSpec rf blocks []).Sublist (blocks.map pyStrip) := by
  intro rf blocks
  constructor
  · rcases blocks with _ | ⟨b, rest⟩
    · rfl
    · exact congrArg (pyJoin "\n\n") (dedupGo_eq_dedupSpec rf (b :: rest) [])
  · obtain ⟨ex, hex, hsub⟩ := dedupSpec_append_sublist rf blocks []
    rw [hex]
    simpa using hsub

/-! ### Claim C7: fallback decomposition and subtask normalization -/

theorem mem_of_getLast?_eq {α : Type} {l : List α} {a : α}
    (h : l.getLast? = some a) : a ∈ l := by
  obtain ⟨hne, hx⟩ := List.mem_getLast?_eq_getLast (l := l) (x := a) (by rw [h]; rfl)
  rw [hx]
  exact List.getLast_mem hne

/-- Replacing a pattern that contains no question mark preserves a trailing
question mark: no occurrence of the pattern can cover the final character. -/
theorem replaceFuel_lastQ_noQ (p : Char) (ps rep : List Char)
    (hno : ∀ x ∈ p :: ps, x ≠ '?') :
    ∀ (fuel : Nat) (s : List Char), s.getLast? = some '?' →
      (replaceFuel p ps rep fuel s).getLast? = some '?' := by
  intro fuel
  induction fuel with
  | zero =>
    intro s hs
    cases s with
    | nil => simp at hs
    | cons c rest => simpa [replaceFuel] using hs
  | succ f ih =>
    intro s hs
    cases s with
    | nil => simp at hs
    | cons c rest =>
      by_cases hpre : (p :: ps).isPrefixOf (c :: rest) = true
      · obtain ⟨tail, htail⟩ := List.isPrefixOf_iff_prefix.mp hpre
        have htail_ne : tail ≠ [] := by
          intro h0
          rw [h0, List.append_nil] at htail
          rw [← htail] at hs
          exact hno '?' (mem_of_getLast?_eq hs) rfl
        have hdrop : rest.drop ps.length = tail := by
          have hd : ((p :: ps) ++ tail).drop (p :: ps).length = tail :=
            List.drop_left (p :: ps) tail
          rw [htail] at hd
          simpa [List.length_cons, List.drop_succ_cons] using hd
        have htlast : tail.getLast? = some '?' := by
          rw [← htail, List.getLast?_append_of_ne_nil _ htail_ne] at hs
          exact hs
        rw [show replaceFuel p ps rep (f + 1) (c :: rest) =
            rep ++ replaceFuel p ps rep f (rest.drop ps.length) from by
              simp [replaceFuel, hpre]]
        rw [hdrop]
        have hrec := ih tail htlast
        rw [List.getLast?_append_of_ne_nil _ (by
          intro h0
          rw [h0] at hrec
          simp at hrec)]
        exact hrec
      · rw [show replaceFuel p ps rep (f + 1) (c :: rest) =
            c :: replaceFuel p ps rep f rest from by simp [replaceFuel, hpre]]
        cases rest with
        | nil =>
          have hc : c = '?' := by simpa using hs
          simp [replaceFuel, hc]
        | cons r0 rrest =>
          rw [List.getLast?_cons_cons] at hs
          have hrec := ih (r0 :: rrest) hs
          rcases hin : replaceFuel p ps rep f (r0 :: rrest) with _ | ⟨x, xs⟩
          · rw [hin] at hrec; simp at hrec
          · rw [hin] at hrec
            rw [List.getLast?_cons_cons]
            exact hrec

/-- Replacing the single-character pattern `?` by a replacement that itself
ends in `?` preserves a trailing question mark. -/
theorem replaceFuel_lastQ_qPat (rep : List Char) (hrep : rep.getLast? = some '?') :
    ∀ (fuel : Nat) (s : List Char), s.getLast? = some '?' →
      (replaceFuel '?' [] rep fuel s).getLast? = some '?' := by
  intro fuel
  induction fuel with
  | zero =>
    intro s hs
    cases s with
    | nil => simp at hs
    | cons c rest => simpa [replaceFuel] using hs
  | succ f ih =>
    intro s hs
    cases s with
    | nil => simp at hs
    | cons c rest =>
      by_cases hpre : (['?'] : List Char).isPrefixOf (c :: rest) = true
      · rw [show replaceFuel '?' [] rep (f + 1) (c :: rest) =
            rep ++ replaceFuel '?' [] rep f rest from by
              simp [replaceFuel, hpre]]
        cases rest with
        | nil => simpa [replaceFuel] using hrep
        | cons r0 rrest =>
          rw [List.getLast?_cons_cons] at hs
          have hrec := ih (r0 :: rrest) hs
          rw [List.getLast?_append_of_ne_nil _ (by
            intro h0
            rw [h0] at hrec
            simp at hrec)]
          exact hrec
      · rw [show replaceFuel '?' [] rep (f + 1) (c :: rest) =
            c :: replaceFuel '?' [] rep f rest from by simp [replaceFuel, hpre]]
        cases rest with
        | nil =>
          have hc : c = '?' := by simpa using hs
          simp [replaceFuel, hc]
        | cons r0 rrest =>
          rw [List.getLast?_cons_cons] at hs
          have hrec := ih (r0 :: rrest) hs
          rcases hin : replaceFuel '?' [] rep f (r0 :: rrest) with _ | ⟨x, xs⟩
          · rw [hin] at hrec; simp at hrec
          · rw [hin] at hrec
            rw [List.getLast?_cons_cons]
            exact hrec

theorem strReplace_lastQ_noQ (s pat rep : String)
    (hno : ∀ x ∈ pat.data, x ≠ '?') (hpat : pat.data ≠ [])
    (hs : s.data.getLast? = some '?') :
    (strReplace s pat rep).data.getLast? = some '?' := by
  rcases hp : pat.data with _ | ⟨p, ps⟩
  · exact absurd hp hpat
  · rw [hp] at hno
    show (match pat.data with
      | [] => s
      | p :: ps => (⟨replaceFuel p ps rep.data s.data.length s.data⟩ : String)).data.getLast?
        = some '?'
    rw [hp]
    exact replaceFuel_lastQ_noQ p ps rep.data hno s.data.length s.data hs

theorem strReplace_lastQ_qMark (s rep : String)
    (hrep : rep.data.getLast? = some '?') (hs : s.data.getLast? = some '?') :
    (strReplace s "?" rep).data.getLast? = some '?' :=
  replaceFuel_lastQ_qPat rep.data hrep s.data.length s.data hs

theorem ne_empty_of_lastQ (q : String) (h : q.data.getLast? = some '?') : q ≠ "" := by
  rw [str_ne_empty_iff]
  intro h0
  rw [h0] at h
  simp at h

theorem buildFallbackSubtasks_length (u : String) (N : Nat) :
    (buildFallbackSubtasks u N).length = N := by
  simp [buildFallbackSubtasks]

theorem buildFallbackSubtasks_elem (u : String) (N : Nat) :
    ∀ q ∈ buildFallbackSubtasks u N, q ≠ "" ∧ q.data.getLast? = some '?' := by
  intro q hq
  simp only [buildFallbackSubtasks, List.mem_map, List.mem_range] at hq
  obtain ⟨i, hi, rfl⟩ := hq
  have hbase : (fallbackTemplates.getD (i % fallbackTemplates.length) "").data.getLast?
      = some '?' := by
    have hmod : i % fallbackTemplates.length < 6 := Nat.mod_lt _ (by decide)
    set j := i % fallbackTemplates.length with hj
    interval_cases j <;> decide
  have hsuffixed : (if fallbackTemplates.length ≤ i then
      strReplace (fallbackTemplates.getD (i % fallbackTemplates.length) "") "?"
        (" (alternative angle " ++ natRepr (i + 1) ++ ")?")
    else fallbackTemplates.getD (i % fallbackTemplates.length) "").data.getLast?
      = some '?' := by
    split
    · apply strReplace_lastQ_qMark
      · rw [String.data_append]
        rw [List.getLast?_append_of_ne_nil _ (by decide)]
        decide
      · exact hbase
    · exact hbase
  have hq : (formatUserInput (if fallbackTemplates.length ≤ i then
      strReplace (fallbackTemplates.getD (i % fallbackTemplates.length) "") "?"
        (" (alternative angle " ++ natRepr (i + 1) ++ ")?")
    else fallbackTemplates.getD (i % fallbackTemplates.length) "") u).data.getLast?
      = some '?' := by
    apply strReplace_lastQ_noQ
    · decide
    · decide
    · exact hsuffixed
  exact ⟨ne_empty_of_lastQ _ hq, hq⟩

theorem normalizeLoop_spec (u : String) (N : Nat) (hN : 1 ≤ N) :
    ∀ (items : List PyVal) (acc : List String),
      acc.length < N → (∀ x ∈ acc, x ≠ "") →
      (normalizeLoop u N items acc).length = N ∧
      (∀ q ∈ normalizeLoop u N items acc,
        q ≠ "" ∧ (q ∈ acc ∨ (∃ item ∈ items, q = pyStrip (pyStr item)) ∨
          q ∈ buildFallbackSubtasks u N)) := by
  intro items
  induction items with
  | nil =>
    intro acc hlen hne
    have hpad : normalizeLoop u N [] acc =
        (acc ++ (buildFallbackSubtasks u N).take (N - acc.length)).take N := by
      simp only [normalizeLoop, if_pos hlen]
    constructor
    · rw [hpad]
      have hfb := buildFallbackSubtasks_length u N
      simp only [List.length_take, List.length_append, hfb]
      omega
    · intro q hq
      rw [hpad] at hq
      have hq2 := List.mem_of_mem_take hq
      rcases List.mem_append.mp hq2 with hq3 | hq3
      · exact ⟨hne q hq3, Or.inl hq3⟩
      · have hq4 := List.mem_of_mem_take hq3
        exact ⟨(buildFallbackSubtasks_elem u N q hq4).1, Or.inr (Or.inr hq4)⟩
  | cons item rest ih =>
    intro acc hlen hne
    by_cases ht : pyStrip (pyStr item) ≠ ""
    · by_cases hfull : N ≤ (acc ++ [pyStrip (pyStr item)]).length
      · have hstep : normalizeLoop u N (item :: rest) acc =
            (acc ++ [pyStrip (pyStr item)]).take N := by
          simp only [normalizeLoop, if_pos ht, if_pos hfull]
        have hlenacc : (acc ++ [pyStrip (pyStr item)]).length = N := by
          simp only [List.length_append, List.length_singleton] at hfull ⊢
          omega
        constructor
        · rw [hstep, List.length_take, hlenacc]
          omega
        · intro q hq
          rw [hstep] at hq
          have hq2 := List.mem_of_mem_take hq
          rcases List.mem_append.mp hq2 with hq3 | hq3
          · exact ⟨hne q hq3, Or.inl hq3⟩
          · have hq4 : q = pyStrip (pyStr item) := by simpa using hq3
            exact ⟨hq4 ▸ ht, Or.inr (Or.inl ⟨item, by simp, hq4⟩)⟩
      · have hstep : normalizeLoop u N (item :: rest) acc =
            normalizeLoop u N rest (acc ++ [pyStrip (pyStr item)]) := by
          simp only [normalizeLoop, if_pos ht, if_neg hfull]
        have hlt : (acc ++ [pyStrip (pyStr item)]).length < N := by omega
        have hne2 : ∀ x ∈ acc ++ [pyStrip (pyStr item)], x ≠ "" := by
          intro x hx
          rcases List.mem_append.mp hx with hx | hx
          · exact hne x hx
          · have : x = pyStrip (pyStr item) := by simpa using hx
            exact this ▸ ht
        obtain ⟨ihl, ihm⟩ := ih (acc ++ [pyStrip (pyStr item)]) hlt hne2
        rw [hstep]
        refine ⟨ihl, fun q hq => ?_⟩
        obtain ⟨hqne, hsrc⟩ := ihm q hq
        refine ⟨hqne, ?_⟩
        rcases hsrc with hq3 | hq3 | hq3
        · rcases List.mem_append.mp hq3 with hq4 | hq4
          · exact Or.inl hq4
          · have : q = pyStrip (pyStr item) := by simpa using hq4
            exact Or.inr (Or.inl ⟨item, by simp, this⟩)
        · obtain ⟨it, hit, hq4⟩ := hq3
          exact Or.inr (Or.inl ⟨it, by simp [hit], hq4⟩)
        · exact Or.inr (Or.inr hq3)
    · have hstep : normalizeLoop u N (item :: rest) acc =
          if N ≤ acc.length then acc.take N else normalizeLoop u N rest acc := by
        simp only [normalizeLoop, if_neg ht]
      rw [hstep, if_neg (by omega)]
      obtain ⟨ihl, ihm⟩ := ih acc hlen hne
      refine ⟨ihl, fun q hq => ?_⟩
      obtain ⟨hqne, hsrc⟩ := ihm q hq
      refine ⟨hqne, ?_⟩
      rcases hsrc with hq3 | hq3 | hq3
      · exact Or.inl hq3
      · obtain ⟨it, hit, hq4⟩ := hq3
        exact Or.inr (Or.inl ⟨it, by simp [hit], hq4⟩)
      · exact Or.inr (Or.inr hq3)

/-- C7: for every requested agent count `N ≥ 1` and every user input,
fallback decomposition returns exactly `N` non-empty strings each ending in
a question mark, and subtask normalization of any generated value returns
exactly `N` non-empty subtask strings, each coming from the generated items
(stringified and stripped, extras truncated in order) or from the
deterministic fallback questions. -/
theorem C7_subtask_counts (u : String) (N : Nat) (hN : 1 ≤ N) :
    ((buildFallbackSubtasks u N).length = N ∧
      (∀ q ∈ buildFallbackSubtasks u N, q ≠ "" ∧ q.data.getLast? = some '?')) ∧
    (∀ g : PyVal,
      (normalizeGeneratedSubtasks g u N).length = N ∧
      ∀ q ∈ normalizeGeneratedSubtasks g u N,
        q ≠ "" ∧ ((∃ items item, g = .list items ∧ item ∈ items ∧
            q = pyStrip (pyStr item)) ∨
          q ∈ buildFallbackSubtasks u N)) := by
  constructor
  · exact ⟨buildFallbackSubtasks_length u N, buildFallbackSubtasks_elem u N⟩
  · intro g
    cases g with
    | list items =>
      obtain ⟨hl, hm⟩ := normalizeLoop_spec u N hN items [] (by simpa using hN) (by simp)
      refine ⟨hl, fun q hq => ?_⟩
      obtain ⟨hqne, hsrc⟩ := hm q hq
      refine ⟨hqne, ?_⟩
      rcases hsrc with hq3 | hq3 | hq3
      · simp at hq3
      · obtain ⟨it, hit, hq4⟩ := hq3
        exact Or.inl ⟨items, it, rfl, hit, hq4⟩
      · exact Or.inr hq3
    | none =>
      simp only [normalizeGeneratedSubtasks]
      refine ⟨buildFallbackSubtasks_length u N, fun q hq => ?_⟩
      exact ⟨(buildFallbackSubtasks_elem u N q hq).1, Or.inr hq⟩
    | bool b =>
      simp only [normalizeGeneratedSubtasks]
      refine ⟨buildFallbackSubtasks_length u N, fun q hq => ?_⟩
      exact ⟨(buildFallbackSubtasks_elem u N q hq).1, Or.inr hq⟩
    | int k =>
      simp only [normalizeGeneratedSubtasks]
      refine ⟨buildFallbackSubtasks_length u N, fun q hq => ?_⟩
      exact ⟨(buildFallbackSubtasks_elem u N q hq).1, Or.inr hq⟩
    | str s =>
      simp only [normalizeGeneratedSubtasks]
      refine ⟨buildFallbackSubtasks_length u N, fun q hq => ?_⟩
      exact ⟨(buildFallbackSubtasks_elem u N q hq).1, Or.inr hq⟩
    | pdict xs =>
      simp only [normalizeGeneratedSubtasks]
      refine ⟨buildFallbackSubtasks_length u N, fun q hq => ?_⟩
      exact ⟨(buildFallbackSubtasks_elem u N q hq).1, Or.inr hq⟩
    | obj r attrs =>
      simp only [normalizeGeneratedSubtasks]
      refine ⟨buildFallbackSubtasks_length u N, fun q hq => ?_⟩
      exact ⟨(buildFallbackSubtasks_elem u N q hq).1, Or.inr hq⟩

/-- Witness for C7 at `N = 7` (exercising the alternative-angle suffix) and
a mixed generated list. -/
theorem C7_subtask_counts_witness :
    (1 ≤ 7 ∧ (buildFallbackSubtasks "AI policy" 7).length = 7) ∧
    (normalizeGeneratedSubtasks (.list [.str " A? ", .str "", .int 7]) "topic" 3).length
      = 3 :=
  ⟨⟨by decide, (C7_subtask_counts "AI policy" 7 (by decide)).1.1⟩,
   ((C7_subtask_counts "topic" 3 (by decide)).2
      (.list [.str " A? ", .str "", .int 7])).1⟩

/-! ### Claim C8: argument parsing and tool-error recovery -/

/-- C8: `_parse_tool_arguments` on a raw string returns the empty object on
an empty or whitespace-only string, the decoded object when the (stripped)
string is valid JSON of object shape, a shape `ValueError` when it is valid
JSON that is not an object, and a parse `ValueError` when it is invalid
JSON; and both failure kinds — like every exception in
`handle_tool_call` — are caught and converted into a tool-role `ToolResult`
message whose content is a JSON `error` payload, so they never abort the
loop or escape the run. -/
theorem C8_parse_tool_arguments_and_recovery :
    (∀ (loads : String → Except String PyVal) (s : String),
        pyStrip s = "" → parseToolArgs loads (.str s) = .ok []) ∧
    (∀ (loads : String → Except String PyVal) (s : String) (d : List (String × PyVal)),
        pyStrip s ≠ "" → loads (pyStrip s) = .ok (.pdict d) →
        parseToolArgs loads (.str s) = .ok d) ∧
    (∀ (loads : String → Except String PyVal) (s : String) (v : PyVal),
        pyStrip s ≠ "" → loads (pyStrip s) = .ok v → (∀ d, v ≠ .pdict d) →
        parseToolArgs loads (.str s) =
          .error (.valueError "Tool arguments JSON must decode to an object")) ∧
    (∀ (loads : String → Except String PyVal) (s : String) (e : String),
        pyStrip s ≠ "" → loads (pyStrip s) = .error e →
        parseToolArgs loads (.str s) =
          .error (.valueError ("Invalid JSON arguments: " ++ e))) ∧
    (∀ (loads : String → Except String PyVal) (tools : List (String × ToolFn))
        (objId : Nat) (tc : PyVal) (e : PErr),
        handleToolCallBody loads tools objId tc = .error e →
        (handleToolCall loads tools objId tc).role = "tool" ∧
        (handleToolCall loads tools objId tc).content =
          (dumps (.pdict [("error",
            .str ("Tool execution failed: " ++ e.msg))])).getD "") := by
  refine ⟨?_, ?_, ?_, ?_, ?_⟩
  · intro loads s hs
    simp [parseToolArgs, hs]
  · intro loads s d hs hl
    simp [parseToolArgs, hs, hl]
  · intro loads s v hs hl hnd
    cases v with
    | pdict d => exact absurd rfl (hnd d)
    | none => simp [parseToolArgs, hs, hl]
    | bool b => simp [parseToolArgs, hs, hl]
    | int k => simp [parseToolArgs, hs, hl]
    | str t => simp [parseToolArgs, hs, hl]
    | list xs => simp [parseToolArgs, hs, hl]
    | obj r attrs => simp [parseToolArgs, hs, hl]
  · intro loads s e hs hl
    simp [parseToolArgs, hs, hl]
  · intro loads tools objId tc e hbody
    unfold handleToolCall
    rw [hbody]
    exact ⟨rfl, rfl⟩

/-- Witness for C8 at concrete inputs: whitespace-only arguments, a valid
JSON object, valid non-object JSON, invalid JSON, and a malformed tool-call
payload recovered into a tool message. -/
theorem C8_parse_tool_arguments_and_recovery_witness :
    parseToolArgs demoLoads (.str "   ") = .ok [] ∧
    parseToolArgs demoLoads (.str demoArgsStr) =
      .ok [("task_summary", .str "done"),
           ("completion_message", .str "short completion payload")] ∧
    parseToolArgs (fun _ => .ok (.list [.int 1])) (.str "[1]") =
      .error (.valueError "Tool arguments JSON must decode to an object") ∧
    parseToolArgs demoLoads (.str "not json") =
      .error (.valueError
        "Invalid JSON arguments: Expecting value: line 1 column 1 (char 0)") ∧
    (handleToolCall demoLoads demoTools 0 (.list [])).role = "tool" ∧
    (handleToolCall demoLoads demoTools 0 (.list [])).content =
      (dumps (.pdict [("error",
        .str ("Tool execution failed: Malformed tool call payload"))])).getD "" := by
  refine ⟨?_, ?_, ?_, ?_, ?_, ?_⟩
  · exact C8_parse_tool_arguments_and_recovery.1 demoLoads "   " (by decide)
  · exact C8_parse_tool_arguments_and_recovery.2.1 demoLoads demoArgsStr _
      (by decide) (by rfl)
  · exact C8_parse_tool_arguments_and_recovery.2.2.1 (fun _ => .ok (.list [.int 1]))
      "[1]" (.list [.int 1]) (by decide) (by rfl) (fun d h => by cases h)
  · exact C8_parse_tool_arguments_and_recovery.2.2.2.1 demoLoads "not json"
      "Expecting value: line 1 column 1 (char 0)" (by decide) (by rfl)
  · exact (C8_parse_tool_arguments_and_recovery.2.2.2.2 demoLoads demoTools 0
      (.list []) (.valueError "Malformed tool call payload") (by rfl)).1
  · exact (C8_parse_tool_arguments_and_recovery.2.2.2.2 demoLoads demoTools 0
      (.list []) (.valueError "Malformed tool call payload") (by rfl)).2

/-! ### Claim C5: global-timeout recording -/

theorem find?_map_set (k : Nat) (v : String) :
    ∀ l : List (Nat × String), l.any (fun p => p.1 == k) = true →
      (l.map (fun p => if p.1 == k then (k, v) else p)).find?
        (fun p => p.1 == k) = some (k, v) := by
  intro l
  induction l with
  | nil => intro h; simp at h
  | cons p rest ih =>
    intro h
    by_cases hp : (p.1 == k) = true
    · rw [List.map_cons, if_pos hp]
      simp only [List.find?]
      rw [show (k == k) = true by simp]
    · have hrest : rest.any (fun p => p.1 == k) = true := by
        simpa [List.any_cons, hp] using h
      rw [List.map_cons, if_neg hp]
      simp only [List.find?]
      rw [show (p.1 == k) = false by simpa using hp]
      exact ih hrest

theorem progLookup_setAssoc_self (l : List (Nat × String)) (k : Nat) (v : String) :
    progLookup (setAssoc l k v) k = some v := by
  unfold setAssoc progLookup
  split
  · rename_i hany
    rw [find?_map_set k v l hany]
    rfl
  · rename_i hany
    rw [List.find?_append]
    have hnone : l.find? (fun p => p.1 == k) = none := by
      rw [List.find?_eq_none]
      intro x hx htest
      have hh : l.any (fun p => p.1 == k) = true :=
        List.any_eq_true.mpr ⟨x, hx, htest⟩
      rw [hh] at hany
      exact hany rfl
    rw [hnone]
    simp only [List.find?]
    rw [show (k == k) = true by simp]
    rfl

theorem find?_map_set_other (k : Nat) (v : String) (a : Nat) (h : k ≠ a) :
    ∀ l : List (Nat × String),
      (l.map (fun p => if p.1 == k then (k, v) else p)).find? (fun p => p.1 == a) =
        l.find? (fun p => p.1 == a) := by
  intro l
  induction l with
  | nil => rfl
  | cons p rest ih =>
    by_cases hp : (p.1 == k) = true
    · have hpk : p.1 = k := by simpa using hp
      have hpa : ((p.1 == a) = true) → False := by
        intro hx
        exact h (hpk ▸ (by simpa using hx))
      rw [List.map_cons, if_pos hp]
      simp only [List.find?]
      rw [show (k == a) = false by simpa using h,
        show (p.1 == a) = false by
          rcases hx : (p.1 == a) with _ | _
          · rfl
          · exact (hpa hx).elim]
      exact ih
    · rw [List.map_cons, if_neg hp]
      simp only [List.find?]
      by_cases hpa : (p.1 == a) = true
      · rw [hpa]
      · rw [show (p.1 == a) = false by simpa using hpa]
        exact ih

theorem progLookup_setAssoc_other (l : List (Nat × String)) (k : Nat) (v : String)
    (a : Nat) (h : k ≠ a) :
    progLookup (setAssoc l k v) a = progLookup l a := by
  unfold setAssoc progLookup
  split
  · rw [find?_map_set_other k v a h l]
  · rw [List.find?_append]
    have h2 : ([(k, v)] : List (Nat × String)).find? (fun p => p.1 == a) = none := by
      rw [List.find?_eq_none]
      intro x hx htest
      have hxkv : x = (k, v) := by simpa using hx
      rw [hxkv] at htest
      exact h (by simpa using htest)
    rw [h2, Option.or_none]

theorem timeout_fold_results (task_timeout : Nat) :
    ∀ (ids : List Nat) (acc : List AgentRes × OrchState),
      (ids.foldl (fun (acc : List AgentRes × OrchState) i =>
        (acc.1 ++ [timeoutEntry i task_timeout],
         updateAgentProgress acc.2 i "TIMEOUT" Option.none)) acc).1 =
        acc.1 ++ ids.map (fun i => timeoutEntry i task_timeout) := by
  intro ids
  induction ids with
  | nil => intro acc; simp
  | cons i rest ih =>
    intro acc
    rw [List.foldl_cons, ih]
    simp

theorem timeout_fold_progress_other (task_timeout : Nat) :
    ∀ (ids : List Nat) (acc : List AgentRes × OrchState) (a : Nat), a ∉ ids →
      progLookup (ids.foldl (fun (acc : List AgentRes × OrchState) i =>
        (acc.1 ++ [timeoutEntry i task_timeout],
         updateAgentProgress acc.2 i "TIMEOUT" Option.none)) acc).2.agent_progress a =
      progLookup acc.2.agent_progress a := by
  intro ids
  induction ids with
  | nil => intro acc a _; rfl
  | cons i rest ih =>
    intro acc a ha
    rw [List.foldl_cons, ih _ _ (fun hmem => ha (by simp [hmem]))]
    exact progLookup_setAssoc_other _ i "TIMEOUT" a (fun hia => ha (by simp [hia]))

theorem timeout_fold_progress (task_timeout : Nat) :
    ∀ (ids : List Nat) (acc : List AgentRes × OrchState) (a : Nat), a ∈ ids →
      progLookup (ids.foldl (fun (acc : List AgentRes × OrchState) i =>
        (acc.1 ++ [timeoutEntry i task_timeout],
         updateAgentProgress acc.2 i "TIMEOUT" Option.none)) acc).2.agent_progress a =
      some "TIMEOUT" := by
  intro ids
  induction ids with
  | nil => intro acc a ha; simp at ha
  | cons i rest ih =>
    intro acc a ha
    by_cases hrest : a ∈ rest
    · rw [List.foldl_cons]
      exact ih _ a hrest
    · have hai : a = i := by
        rcases List.mem_cons.mp ha with h | h
        · exact h
        · exact absurd h hrest
      subst hai
      rw [List.foldl_cons, timeout_fold_progress_other task_timeout rest _ a hrest]
      exact progLookup_setAssoc_self _ a "TIMEOUT"

/-- C5: every agent id in the not-done partition of the global wait is
recorded in the collected results with status `timeout` and the scripted
timeout response, its progress entry is set to `TIMEOUT`, and
`orchestrate` still returns the aggregation of the collected (sorted)
results — a plain string, not an exception.  (The thread pool itself is
abstracted by the done/not-done partition the `wait` call produces.) -/
theorem C5_timeout_agents_recorded
    (synth : String → Except String String) (tmpl strat : String)
    (agentRuns : Nat → Nat → Except String String) (elapsed : Nat → ℚ)
    (N task_timeout : Nat) (doneIds notDoneIds : List Nat) (a : Nat)
    (ha : a ∈ notDoneIds) :
    (∃ r ∈ (orchestrateCollect agentRuns elapsed N task_timeout doneIds notDoneIds).1,
        r.agent_id = a ∧ r.status = "timeout" ∧
        r.response = timeoutResponse a task_timeout) ∧
    progLookup (orchestrateCollect agentRuns elapsed N task_timeout doneIds
        notDoneIds).2.agent_progress a = some "TIMEOUT" ∧
    orchestrateFromWait synth tmpl strat agentRuns elapsed N task_timeout
        doneIds notDoneIds =
      aggregateResults synth tmpl strat
        (sortResults (orchestrateCollect agentRuns elapsed N task_timeout
          doneIds notDoneIds).1) := by
  refine ⟨?_, ?_, rfl⟩
  · refine ⟨timeoutEntry a task_timeout, ?_, rfl, rfl, rfl⟩
    simp only [orchestrateCollect]
    rw [timeout_fold_results]
    apply List.mem_append.mpr
    exact Or.inr (List.mem_map.mpr ⟨a, ha, rfl⟩)
  · simp only [orchestrateCollect]
    exact timeout_fold_progress task_timeout notDoneIds _ a ha

/-- Witness for C5 at a concrete two-agent scenario: agent 0 completed,
agent 1 abandoned at the deadline. -/
theorem C5_timeout_agents_recorded_witness :
    (∃ r ∈ (orchestrateCollect (fun _ _ => .ok "A sufficiently long response.")
        (fun _ => 1) 2 30 [0] [1]).1,
        r.agent_id = 1 ∧ r.status = "timeout" ∧
        r.response = timeoutResponse 1 30) ∧
    progLookup (orchestrateCollect (fun _ _ => .ok "A sufficiently long response.")
        (fun _ => 1) 2 30 [0] [1]).2.agent_progress 1 = some "TIMEOUT" :=
  ⟨(C5_timeout_agents_recorded (fun _ => .error "unused") "t" "consensus"
      (fun _ _ => .ok "A sufficiently long response.") (fun _ => 1) 2 30 [0] [1] 1
      (by simp)).1,
   (C5_timeout_agents_recorded (fun _ => .error "unused") "t" "consensus"
      (fun _ _ => .ok "A sufficiently long response.") (fun _ => 1) 2 30 [0] [1] 1
      (by simp)).2.1⟩

/-! ### Claim C9: tool-call batch normalization -/

/-- Modelled from the claim wording: the `(provided id, resolved name, raw
arguments)` triple a provider tool-call value resolves to (dict-shaped
values through `.get`, object-shaped values through `getattr`). -/
def specNameId (tc : PyVal) : PyVal × PyVal × PyVal :=
  match tc with
  | .pdict d =>
    let call_id := (plookup d "id").getD .none
    match functionField d with
    | .pdict fdd =>
      (call_id, (plookup fdd "name").getD .none,
        (plookup fdd "arguments").getD (.str "\x7b\x7d"))
    | _ => (call_id, .none, .str "\x7b\x7d")
  | .none => (.none, .none, .str "\x7b\x7d")
  | _ =>
    (pyGetattr tc "id" .none,
     if truthy (pyGetattr tc "function" .none) then
       pyGetattr (pyGetattr tc "function" .none) "name" .none
     else .none,
     if truthy (pyGetattr tc "function" .none) then
       pyGetattr (pyGetattr tc "function" .none) "arguments" (.str "\x7b\x7d")
     else .str "\x7b\x7d")

/-- Modelled from the claim wording: structured arguments are serialized,
null arguments default to the empty-object string, strings pass through,
other values are stringified. -/
def specArgString (v : PyVal) : String :=
  match v with
  | .pdict _ => (dumps v).getD ""
  | .list _ => (dumps v).getD ""
  | .none => "\x7b\x7d"
  | .str s => s
  | w => pyStr w

/-- Modelled from the claim wording: a provider tool-call value with a
resolvable truthy name becomes one canonical call (with a synthesized
placeholder id when the provider id is missing/falsy); any other value is
dropped. -/
def specCanon (objId : Nat) (tc : PyVal) : Option NormalizedCall :=
  let r := specNameId tc
  if truthy r.2.1 then
    some { id := if truthy r.1 then r.1 else .str ("call_" ++ natRepr objId),
           name := r.2.1, arguments := specArgString r.2.2 }
  else Option.none

/-- The claim-side batch transformation: canonicalize in input order,
dropping only nameless entries. -/
def specCanonList (ids : Nat → Nat) : Nat → List PyVal → List NormalizedCall
  | _, [] => []
  | i, tc :: rest =>
    match specCanon (ids i) tc with
    | some c => c :: specCanonList ids (i + 1) rest
    | Option.none => specCanonList ids (i + 1) rest

/-- Well-formedness of a provider tool-call value: the amendment forced by
the counterexample.  A dict-shaped value must carry a falsy-or-dict
`function` field, and (when the name is truthy) structured arguments must
be JSON-serializable; every other shape only needs serializable structured
arguments when its name is truthy. -/
def tcWellFormed (tc : PyVal) : Bool :=
  match tc with
  | .pdict d =>
    match functionField d with
    | .pdict fdd =>
      let name := (plookup fdd "name").getD .none
      let args := (plookup fdd "arguments").getD (.str "\x7b\x7d")
      !truthy name ||
        (match args with
         | .pdict _ => (dumps args).isSome
         | .list _ => (dumps args).isSome
         | _ => true)
    | _ => false
  | .none => true
  | _ =>
    let name := if truthy (pyGetattr tc "function" .none) then
        pyGetattr (pyGetattr tc "function" .none) "name" .none
      else .none
    let args := if truthy (pyGetattr tc "function" .none) then
        pyGetattr (pyGetattr tc "function" .none) "arguments" (.str "\x7b\x7d")
      else .str "\x7b\x7d"
    !truthy name ||
      (match args with
       | .pdict _ => (dumps args).isSome
       | .list _ => (dumps args).isSome
       | _ => true)

/-- `_normalize_tool_call` agrees with the claim-side canonical form on
well-formed tool-call values (agent.py lines 46-79). -/
theorem normalizeToolCall_wf (objId : Nat) (tc : PyVal)
    (hwf : tcWellFormed tc = true) :
    normalizeToolCall objId tc = .ok (specCanon objId tc) := by
  cases tc with
  | none => rfl
  | bool b => rfl
  | int k => rfl
  | str s => rfl
  | list xs => rfl
  | pdict d =>
    cases hfd : functionField d with
    | pdict fdd =>
      simp only [tcWellFormed, hfd] at hwf
      by_cases hname : truthy ((plookup fdd "name").getD .none) = true
      · rw [hname] at hwf
        simp only [Bool.not_true, Bool.false_or] at hwf
        cases harg : (plookup fdd "arguments").getD (.str "\x7b\x7d") with
        | pdict xs =>
          cases hs : dumps (PyVal.pdict xs) with
          | none =>
            rw [harg, hs] at hwf
            simp at hwf
          | some s =>
            simp [normalizeToolCall, specCanon, specNameId, specArgString, hfd, hname,
              harg, hs, pyGet, pure, Except.pure, bind, Except.bind]
        | list xs =>
          cases hs : dumps (PyVal.list xs) with
          | none =>
            rw [harg, hs] at hwf
            simp at hwf
          | some s =>
            simp [normalizeToolCall, specCanon, specNameId, specArgString, hfd, hname,
              harg, hs, pyGet, pure, Except.pure, bind, Except.bind]
        | none =>
          simp [normalizeToolCall, specCanon, specNameId, specArgString, hfd, hname,
            harg, pyGet, pure, Except.pure, bind, Except.bind]
        | str s2 =>
          simp [normalizeToolCall, specCanon, specNameId, specArgString, hfd, hname,
            harg, pyGet, pure, Except.pure, bind, Except.bind]
        | bool b2 =>
          simp [normalizeToolCall, specCanon, specNameId, specArgString, hfd, hname,
            harg, pyGet, pure, Except.pure, bind, Except.bind]
        | int k2 =>
          simp [normalizeToolCall, specCanon, specNameId, specArgString, hfd, hname,
            harg, pyGet, pure, Except.pure, bind, Except.bind]
        | obj r2 attrs2 =>
          simp [normalizeToolCall, specCanon, specNameId, specArgString, hfd, hname,
            harg, pyGet, pure, Except.pure, bind, Except.bind]
      · have hnf : truthy ((plookup fdd "name").getD .none) = false := by
          simpa using hname
        simp [normalizeToolCall, specCanon, specNameId, hfd, hnf, pyGet,
          pure, Except.pure, bind, Except.bind]
    | none => simp [tcWellFormed, hfd] at hwf
    | bool b2 => simp [tcWellFormed, hfd] at hwf
    | int k2 => simp [tcWellFormed, hfd] at hwf
    | str s2 => simp [tcWellFormed, hfd] at hwf
    | list xs2 => simp [tcWellFormed, hfd] at hwf
    | obj r2 attrs2 => simp [tcWellFormed, hfd] at hwf
  | obj r attrs =>
    simp only [tcWellFormed] at hwf
    by_cases hfo : truthy (pyGetattr (.obj r attrs) "function" .none) = true
    · rw [if_pos hfo, if_pos hfo] at hwf
      by_cases hname :
          truthy (pyGetattr (pyGetattr (.obj r attrs) "function" .none) "name" .none) = true
      · rw [hname] at hwf
        simp only [Bool.not_true, Bool.false_or] at hwf
        cases harg :
            pyGetattr (pyGetattr (.obj r attrs) "function" .none) "arguments"
              (.str "\x7b\x7d") with
        | pdict xs =>
          cases hs : dumps (PyVal.pdict xs) with
          | none =>
            rw [harg, hs] at hwf
            simp at hwf
          | some s =>
            simp [normalizeToolCall, specCanon, specNameId, specArgString, hfo, hname,
              harg, hs, pure, Except.pure, bind, Except.bind]
        | list xs =>
          cases hs : dumps (PyVal.list xs) with
          | none =>
            rw [harg, hs] at hwf
            simp at hwf
          | some s =>
            simp [normalizeToolCall, specCanon, specNameId, specArgString, hfo, hname,
              harg, hs, pure, Except.pure, bind, Except.bind]
        | none =>
          simp [normalizeToolCall, specCanon, specNameId, specArgString, hfo, hname,
            harg, pure, Except.pure, bind, Except.bind]
        | str s2 =>
          simp [normalizeToolCall, specCanon, specNameId, specArgString, hfo, hname,
            harg, pure, Except.pure, bind, Except.bind]
        | bool b2 =>
          simp [normalizeToolCall, specCanon, specNameId, specArgString, hfo, hname,
            harg, pure, Except.pure, bind, Except.bind]
        | int k2 =>
          simp [normalizeToolCall, specCanon, specNameId, specArgString, hfo, hname,
            harg, pure, Except.pure, bind, Except.bind]
        | obj r2 attrs2 =>
          simp [normalizeToolCall, specCanon, specNameId, specArgString, hfo, hname,
            harg, pure, Except.pure, bind, Except.bind]
      · have hnf :
            truthy (pyGetattr (pyGetattr (PyVal.obj r attrs) "function" PyVal.none)
              "name" PyVal.none) = false := by
          simpa using hname
        simp [normalizeToolCall, specCanon, specNameId, hfo, hnf,
          pure, Except.pure, bind, Except.bind]
    · have hf : truthy (pyGetattr (PyVal.obj r attrs) "function" PyVal.none) = false := by
        simpa using hfo
      have ht : truthy PyVal.none = false := rfl
      simp [normalizeToolCall, specCanon, specNameId, hf, ht,
        pure, Except.pure, bind, Except.bind]

/-- `_normalize_tool_calls`'s element loop agrees with the claim-side batch
transformation on well-formed elements, at any starting identity index. -/
theorem normalizeEach_wf (ids : Nat → Nat) (i : Nat) (tcs : List PyVal)
    (hwf : ∀ tc ∈ tcs, tcWellFormed tc = true) :
    normalizeEach ids i tcs = .ok (specCanonList ids i tcs) := by
  induction tcs generalizing i with
  | nil => rfl
  | cons tc rest ih =>
    have h1 := normalizeToolCall_wf (ids i) tc (hwf tc (List.mem_cons_self tc rest))
    have h2 := ih (i + 1) (fun x hx => hwf x (List.mem_cons_of_mem tc hx))
    cases hc : specCanon (ids i) tc with
    | none =>
      simp [normalizeEach, specCanonList, h1, h2, hc, bind, Except.bind, pure, Except.pure]
    | some c =>
      simp [normalizeEach, specCanonList, h1, h2, hc, bind, Except.bind, pure, Except.pure]

/-- A call the claim-side canonicalization keeps has a truthy name and a
truthy id. -/
theorem specCanon_some_truthy (objId : Nat) (tc : PyVal) (c : NormalizedCall)
    (hc : specCanon objId tc = some c) :
    truthy c.name = true ∧ truthy c.id = true := by
  simp only [specCanon] at hc
  by_cases hn : truthy (specNameId tc).2.1 = true
  · rw [if_pos hn] at hc
    obtain rfl : _ = c := Option.some.inj hc
    refine ⟨hn, ?_⟩
    by_cases hid : truthy (specNameId tc).1 = true
    · rw [if_pos hid]
      exact hid
    · have hf : truthy (specNameId tc).1 = false := by simpa using hid
      have hne : ("call_" ++ natRepr objId) ≠ "" :=
        append_ne_empty_left "call_" (natRepr objId) (by decide)
      rw [hf]
      simpa [truthy, bne_iff_ne] using hne
  · rw [if_neg hn] at hc
    exact Option.noConfusion hc

/-- Every call in the claim-side batch output has a truthy name and id. -/
theorem specCanonList_truthy (ids : Nat → Nat) :
    ∀ (i : Nat) (tcs : List PyVal) (c : NormalizedCall),
      c ∈ specCanonList ids i tcs → truthy c.name = true ∧ truthy c.id = true
  | _, [], c, hm => by simp [specCanonList] at hm
  | i, tc :: rest, c, hm => by
    cases hc : specCanon (ids i) tc with
    | none =>
      have hl : specCanonList ids i (tc :: rest) = specCanonList ids (i + 1) rest := by
        simp [specCanonList, hc]
      rw [hl] at hm
      exact specCanonList_truthy ids (i + 1) rest c hm
    | some c0 =>
      have hl : specCanonList ids i (tc :: rest) = c0 :: specCanonList ids (i + 1) rest := by
        simp [specCanonList, hc]
      rw [hl] at hm
      cases List.mem_cons.mp hm with
      | inl h => exact h ▸ specCanon_some_truthy (ids i) tc c0 hc
      | inr h => exact specCanonList_truthy ids (i + 1) rest c h

/-- **C9** (corrected): for every batch of well-formed provider tool-call
values (dict-shaped with a falsy-or-dict `function` field and, when the
resolved name is truthy, JSON-serializable structured arguments; other
shapes likewise), `_normalize_tool_calls` succeeds and returns, in input
order, exactly the claim-side canonical calls: the entries with a truthy
resolved name, each carrying that (truthy) name, a truthy id (the provider
id when truthy, else the synthesized placeholder built from the value
identity, which is collision-free because the placeholder map is
injective), and string arguments per the claim rules (structured values
serialized, null defaulting to the empty-object string, strings passed
through, other values stringified); nameless entries are dropped without
invalidating siblings.  The unamended claim is refuted by the
counterexample: one malformed entry (a dict-shaped call whose truthy
`function` field is not a dict) raises and invalidates the whole batch
rather than being dropped. -/
theorem C9_batch_normalization (ids : Nat → Nat) (tcs : List PyVal)
    (hwf : ∀ tc ∈ tcs, tcWellFormed tc = true) :
    normalizeToolCalls ids (.list tcs) = .ok (specCanonList ids 0 tcs) ∧
    (∀ c ∈ specCanonList ids 0 tcs, truthy c.name = true ∧ truthy c.id = true) ∧
    Function.Injective (fun o : Nat => "call_" ++ natRepr o) := by
  refine ⟨?_, fun c hc => specCanonList_truthy ids 0 tcs c hc, ?_⟩
  · cases tcs with
    | nil => rfl
    | cons tc rest => exact normalizeEach_wf ids 0 (tc :: rest) hwf
  · intro a b h
    have hd := congrArg String.data h
    simp only [String.data_append] at hd
    exact natRepr_inj (String.ext_iff.mpr (List.append_cancel_left hd))

/-- **C9** counterexample to the literal claim: in a two-element batch the
first call is individually normalizable (second conjunct), but the second
one — dict-shaped with a truthy non-dict `function` field — raises
`AttributeError`, so the whole batch errors instead of dropping only the
offending entry (first conjunct). -/
theorem C9_batch_normalization_counterexample :
    normalizeToolCalls (fun i => i)
        (.list [completionToolCall "a", .pdict [("function", .str "boom")]]) =
      .error (.attributeError "object has no attribute get: name") ∧
    normalizeToolCall 0 (completionToolCall "a") =
      .ok (some { id := .str "a", name := .str "mark_task_complete",
                  arguments := demoArgsStr }) :=
  ⟨rfl, rfl⟩

/-- Closed witness for the corrected C9 on a three-element well-formed
batch: a completion call with a falsy provider id (so the placeholder is
synthesized), a plain search call, and a null entry that is dropped. -/
theorem C9_batch_normalization_witness :
    normalizeToolCalls (fun i => i)
        (.list [completionToolCall "", searchToolCall, .none]) =
      .ok (specCanonList (fun i => i) 0 [completionToolCall "", searchToolCall, .none]) ∧
    (∀ c ∈ specCanonList (fun i => i) 0 [completionToolCall "", searchToolCall, .none],
      truthy c.name = true ∧ truthy c.id = true) ∧
    Function.Injective (fun o : Nat => "call_" ++ natRepr o) :=
  C9_batch_normalization (fun i => i) [completionToolCall "", searchToolCall, .none]
    (by
      intro tc htc
      simp only [List.mem_cons, List.not_mem_nil, or_false] at htc
      rcases htc with rfl | rfl | rfl <;> rfl)

end MIH
